import Mathlib

/-!
Verification development for the ORIENT-H regret-based scheduling engine
(src/server/regret_engine.py).

The Python source is shallowly embedded: every class method that the
properties below talk about becomes a pure Lean function on explicit state
values, machine floats become exact rationals, and the two sources of
nondeterminism of the engine (the Gaussian exploration noise added in
evaluate_all_strategies and the np.random.choice sampling in
select_strategy) become explicit inputs, so that universally quantified
theorems range over every possible draw.  math.sqrt (used only for the
Euclidean travel distance and for the equilibrium-distance diagnostic,
neither of which any property depends on numerically) is abstracted by a
function parameter, keeping every definition executable over the rationals.
-/

namespace OrientH

/-- Rooms of the unit.  The Python engine keys rooms by strings and every
lookup has an explicit default for unknown names; the constructor `other`
stands for any room name outside the fixed topology, and `WAITING` is the
sentinel location used by the plan compiler for a patient that has not
been escorted anywhere yet. -/
inductive Room : Type
  | TRIAGE | TB | LAB | ICU | ENT | WAITING
  | other (k : ℕ)
deriving DecidableEq, Repr

/-- Patient severity classes; reachable patients always carry one of the
three tier keys of the Python constant dictionaries. -/
inductive PType : Type
  | Critical | Moderate | Minor
deriving DecidableEq, Repr

/-- The two agents. -/
inductive Agent : Type
  | nurse | doctor
deriving DecidableEq, Repr

def DOCTOR_HEALING_POWER : ℚ := 60
def NURSE_HEALING_POWER : ℚ := 40
def COOPERATIVE_BONUS : ℚ := 6/5

/-- ROOM_EFFECTIVENESS.get(room, default): effectiveness of the known
rooms; callers supply the default used for unknown rooms. -/
def roomEffectiveness (r : Room) (default : ℚ) : ℚ :=
  match r with
  | Room.TRIAGE => 1/10
  | Room.TB => 3/10
  | Room.LAB => 3/20
  | Room.ICU => 1/2
  | _ => default

/-- ROOM_TREATMENT_TIME.get(room, default). -/
def roomTreatmentTime (r : Room) (default : ℚ) : ℚ :=
  match r with
  | Room.TRIAGE => 5
  | Room.TB => 15
  | Room.LAB => 20
  | Room.ICU => 45
  | _ => default

/-- WAITING_PENALTY per minute (negative health rates). -/
def waitingPenalty : PType → ℚ
  | PType.Critical => -3
  | PType.Moderate => -2
  | PType.Minor => -1

/-- COMPLETION_REWARD. -/
def completionReward : PType → ℚ
  | PType.Critical => 100
  | PType.Moderate => 60
  | PType.Minor => 30

/-- INITIAL_HEALTH. -/
def initialHealth : PType → ℚ
  | PType.Critical => 30
  | PType.Moderate => 50
  | PType.Minor => 70

/-- PATHWAYS. -/
def pathways : PType → List Room
  | PType.Critical => [Room.TRIAGE, Room.TB, Room.ICU]
  | PType.Moderate => [Room.TRIAGE, Room.TB, Room.LAB, Room.TB]
  | PType.Minor => [Room.TRIAGE, Room.TB]

/-- Default deadline per patient type (the .get(ptype, 30.0) dictionary in
Patient.__post_init__ and spawn_patient). -/
def defaultDeadline : PType → ℚ
  | PType.Critical => 25
  | PType.Moderate => 45
  | PType.Minor => 30

/-- Patient record (dataclass Patient). -/
structure Patient : Type where
  id : ℕ
  ptype : PType
  health : ℚ
  pathway : List Room
  current_step : ℕ := 0
  arrival_time : ℚ := 0
  waiting_time : ℚ := 0
  being_treated_by : List Agent := []
  deadline : ℚ := 0
  doctor_required : Bool := false
deriving DecidableEq, Repr

namespace Patient

/-- Patient.is_complete property. -/
def is_complete (p : Patient) : Bool :=
  decide (p.pathway.length ≤ p.current_step)

/-- Patient.next_room property. -/
def next_room (p : Patient) : Option Room :=
  if p.is_complete then none else p.pathway.get? p.current_step

/-- Patient.urgency property. -/
def urgency (p : Patient) : ℚ :=
  let type_weight : ℚ :=
    match p.ptype with
    | PType.Critical => 3
    | PType.Moderate => 2
    | PType.Minor => 1
  type_weight * ((100 - p.health) / 100)

/-- Patient.clone: rebuilds every field, copying the two inner lists. -/
def clone (p : Patient) : Patient :=
  { id := p.id, ptype := p.ptype, health := p.health,
    pathway := p.pathway, current_step := p.current_step,
    arrival_time := p.arrival_time, waiting_time := p.waiting_time,
    being_treated_by := p.being_treated_by,
    deadline := p.deadline, doctor_required := p.doctor_required }

end Patient

instance : Inhabited Patient :=
  ⟨{ id := 0, ptype := PType.Minor, health := 0, pathway := [] }⟩

/-- Scenario state (dataclass GameState). -/
structure GameState : Type where
  patients : List Patient := []
  nurse_pos : Room := Room.ENT
  doctor_pos : Room := Room.ENT
  nurse_busy_until : ℚ := 0
  doctor_busy_until : ℚ := 0
  current_time : ℚ := 0
  total_reward : ℚ := 0
  total_penalty : ℚ := 0
  completed_patients : ℕ := 0
deriving DecidableEq, Repr

/-- GameState.clone: fresh state with cloned patients. -/
def GameState.clone (s : GameState) : GameState :=
  { patients := s.patients.map Patient.clone,
    nurse_pos := s.nurse_pos, doctor_pos := s.doctor_pos,
    nurse_busy_until := s.nurse_busy_until,
    doctor_busy_until := s.doctor_busy_until,
    current_time := s.current_time, total_reward := s.total_reward,
    total_penalty := s.total_penalty,
    completed_patients := s.completed_patients }

theorem Patient.clone_preserves (p : Patient) : p.clone = p := rfl

theorem GameState.clone_eq_self (s : GameState) : s.clone = s := by
  have h : Patient.clone = id := by
    funext p
    rfl
  cases s
  simp [GameState.clone, h]

/-! ## Strategy catalog (StrategyGenerator.STRATEGIES) -/

/-- The six catalog strategies, in the (insertion-)order of the Python
STRATEGIES dictionary; every dictionary iteration in the engine visits
them in this order. -/
inductive Strategy : Type
  | PARALLEL_CRITICAL
  | SEQUENTIAL_SEVERITY
  | DOCTOR_CRITICAL_NURSE_OTHERS
  | COOPERATIVE_ALL
  | NEAREST_FIRST
  | NURSE_TRIAGE_DOCTOR_TREAT
deriving DecidableEq, Repr

/-- The fixed catalog in dictionary order. -/
def catalog : List Strategy :=
  [Strategy.PARALLEL_CRITICAL, Strategy.SEQUENTIAL_SEVERITY,
   Strategy.DOCTOR_CRITICAL_NURSE_OTHERS, Strategy.COOPERATIVE_ALL,
   Strategy.NEAREST_FIRST, Strategy.NURSE_TRIAGE_DOCTOR_TREAT]

/-- The priority tag of each catalog entry. -/
inductive Priority : Type
  | critical_first | severity | split_by_type | fifo | distance | role_based
deriving DecidableEq, Repr

def Strategy.priority : Strategy → Priority
  | Strategy.PARALLEL_CRITICAL => Priority.critical_first
  | Strategy.SEQUENTIAL_SEVERITY => Priority.severity
  | Strategy.DOCTOR_CRITICAL_NURSE_OTHERS => Priority.split_by_type
  | Strategy.COOPERATIVE_ALL => Priority.fifo
  | Strategy.NEAREST_FIRST => Priority.distance
  | Strategy.NURSE_TRIAGE_DOCTOR_TREAT => Priority.role_based

/-! ## CFR regret minimizer (class CFRRegretMinimizer) -/

/-- One entry of the iteration_history diagnostic list. -/
structure IterationRecord : Type where
  iteration : ℕ
  strategy_values : Strategy → ℚ
  selected_strategy : Strategy
  probabilities : Strategy → ℚ
  reward : ℚ

/-- State of CFRRegretMinimizer.  The Python regret_sum / strategy_sum /
strategy_values defaultdicts are modelled as total maps (absent key =
default value), which matches defaultdict read semantics; the engine only
ever writes catalog keys.  The falsy-empty-dict test on _prev_probs is an
Option. -/
structure LearnerState : Type where
  regret_sum : Strategy → ℚ
  strategy_sum : Strategy → ℚ
  iteration_history : List IterationRecord
  regret_history : List ℚ
  cumulative_regret : ℚ
  distance_to_optimal_history : List ℚ
  total_iterations : ℕ
  strategy_values : Strategy → List ℚ
  prev_probs : Option (Strategy → ℚ)

/-- The freshly-constructed learner (CFRRegretMinimizer.__init__). -/
def LearnerState.start : LearnerState :=
  { regret_sum := fun _ => 0
    strategy_sum := fun _ => 0
    iteration_history := []
    regret_history := []
    cumulative_regret := 0
    distance_to_optimal_history := []
    total_iterations := 0
    strategy_values := fun _ => []
    prev_probs := none }

/-- CFRRegretMinimizer.get_strategy_probabilities.  The Python method
returns a dict keyed by the given strategy list; the model returns a total
function whose values are only read at members of that list. -/
def get_strategy_probabilities (regret : Strategy → ℚ) (strategies : List Strategy) :
    Strategy → ℚ :=
  let total : ℚ := (strategies.map (fun s => max 0 (regret s))).sum
  if 0 < total then fun s => max 0 (regret s) / total
  else fun _ => 1 / (strategies.length : ℚ)

/-- Python max over a list of numbers (max of an empty sequence raises in
Python; every call site below guards on non-emptiness, and the model
returns 0 in that unreachable case). -/
def pyMaxQ : List ℚ → ℚ
  | [] => 0
  | x :: xs => xs.foldl max x

/-- CFRRegretMinimizer.update_regrets.  The strategy_values dict argument
becomes its key list (support, the dict key set in insertion order) and a
value function; the sq parameter abstracts math.sqrt, which is used only
for the equilibrium-distance diagnostic.  The selected_strategy parameter
of the Python method is unused by the method body and is omitted. -/
def update_regrets (sq : ℚ → ℚ) (support : List Strategy) (values : Strategy → ℚ)
    (L : LearnerState) : LearnerState :=
  if support = [] then L
  else
    let probs := get_strategy_probabilities L.regret_sum support
    let node_value := (support.map (fun s => probs s * values s)).sum
    let regret' := fun s =>
      if s ∈ support then L.regret_sum s + (values s - node_value) else L.regret_sum s
    let svals' := fun s =>
      if s ∈ support then L.strategy_values s ++ [values s] else L.strategy_values s
    let best_value := pyMaxQ (support.map values)
    let cum' := L.cumulative_regret + (best_value - node_value)
    let probs2 := get_strategy_probabilities regret' support
    let prob_values := support.map probs2
    let mean_prob := prob_values.sum / (prob_values.length : ℚ)
    let variance := (prob_values.map (fun p => (p - mean_prob) ^ 2)).sum / (prob_values.length : ℚ)
    let std_dev := sq variance
    let distance :=
      match L.prev_probs with
      | some pp => std_dev + sq ((support.map (fun s => (probs2 s - pp s) ^ 2)).sum) * (1/2)
      | none => std_dev
    { regret_sum := regret'
      strategy_sum := L.strategy_sum
      iteration_history := L.iteration_history
      regret_history := L.regret_history ++ [cum']
      cumulative_regret := cum'
      distance_to_optimal_history := L.distance_to_optimal_history ++ [distance]
      total_iterations := L.total_iterations + 1
      strategy_values := svals'
      prev_probs := some probs2 }

/-- CFRRegretMinimizer.record_iteration; the probs dict argument becomes
its key list plus a value function. -/
def record_iteration (support : List Strategy) (values : Strategy → ℚ) (selected : Strategy)
    (probs : Strategy → ℚ) (reward : ℚ) (L : LearnerState) : LearnerState :=
  { L with
    iteration_history := L.iteration_history ++
      [{ iteration := L.total_iterations, strategy_values := values,
         selected_strategy := selected, probabilities := probs, reward := reward }]
    strategy_sum := fun s =>
      if s ∈ support then L.strategy_sum s + probs s else L.strategy_sum s }

/-- CFRRegretMinimizer.get_average_strategy, as the association list the
Python dict comprehension produces.  The strategy_sum dict is empty in the
fresh learner and otherwise has exactly the catalog keys in catalog order
(record_iteration always inserts them from the full-catalog probability
dict), so its total is the catalog sum and its item order is catalog
order. -/
def get_average_strategy (L : LearnerState) : List (Strategy × ℚ) :=
  let total := (catalog.map L.strategy_sum).sum
  if 0 < total then catalog.map (fun s => (s, L.strategy_sum s / total)) else []

/-! ## Helper lemmas about the probability computations -/

theorem sum_map_div {α : Type} (l : List α) (f : α → ℚ) (c : ℚ) :
    (l.map (fun a => f a / c)).sum = (l.map f).sum / c := by
  induction l with
  | nil => simp
  | cons x xs ih => simp [ih, add_div]

theorem probs_nonneg (regret : Strategy → ℚ) (strategies : List Strategy) (s : Strategy) :
    0 ≤ get_strategy_probabilities regret strategies s := by
  unfold get_strategy_probabilities
  by_cases h : 0 < (strategies.map (fun s => max 0 (regret s))).sum
  · simp only [h, if_pos]
    exact div_nonneg (le_max_left _ _) (le_of_lt h)
  · simp only [h, if_neg, if_false]
    positivity

theorem probs_sum_one (regret : Strategy → ℚ) (strategies : List Strategy)
    (h : strategies ≠ []) :
    (strategies.map (get_strategy_probabilities regret strategies)).sum = 1 := by
  have hlen : (0 : ℚ) < (strategies.length : ℚ) := by
    have := List.length_pos.mpr h
    exact_mod_cast this
  unfold get_strategy_probabilities
  by_cases htot : 0 < (strategies.map (fun s => max 0 (regret s))).sum
  · simp only [htot, if_pos]
    rw [sum_map_div]
    exact div_self (ne_of_gt htot)
  · simp only [htot, if_neg, if_false]
    rw [List.map_const', List.sum_replicate, nsmul_eq_mul]
    field_simp

theorem probs_uniform_of_nonpos (regret : Strategy → ℚ) (strategies : List Strategy)
    (h : ∀ s ∈ strategies, regret s ≤ 0) (s : Strategy) :
    get_strategy_probabilities regret strategies s = 1 / (strategies.length : ℚ) := by
  unfold get_strategy_probabilities
  have htot : (strategies.map (fun s => max 0 (regret s))).sum = 0 := by
    apply List.sum_eq_zero
    intro x hx
    rcases List.mem_map.mp hx with ⟨t, ht, rfl⟩
    simp [max_eq_left (h t ht)]
  simp [htot]

theorem pyMaxQ_le (l : List ℚ) (x : ℚ) (hx : x ∈ l) : x ≤ pyMaxQ l := by
  have key : ∀ (xs : List ℚ) (a y : ℚ), (y = a ∨ y ∈ xs) → y ≤ xs.foldl max a := by
    intro xs
    induction xs with
    | nil =>
      intro a y hy
      rcases hy with rfl | hy
      · simp
      · simp at hy
    | cons z zs ih =>
      intro a y hy
      have hbase : max a z ≤ zs.foldl max (max a z) := ih (max a z) (max a z) (Or.inl rfl)
      rcases hy with rfl | hy
      · calc y ≤ max y z := le_max_left _ _
          _ ≤ zs.foldl max (max y z) := hbase
          _ = (z :: zs).foldl max y := by simp [List.foldl_cons]
      · rcases List.mem_cons.mp hy with rfl | hzs
        · calc y ≤ max a y := le_max_right _ _
            _ ≤ zs.foldl max (max a y) := hbase
            _ = (y :: zs).foldl max a := by simp [List.foldl_cons]
        · simpa [List.foldl_cons] using ih (max a z) y (Or.inr hzs)
  match l, hx with
  | a :: xs, hx =>
    rcases List.mem_cons.mp hx with rfl | hxs
    · exact key xs x x (Or.inl rfl)
    · exact key xs a x (Or.inr hxs)

theorem pyMaxQ_mem (l : List ℚ) (h : l ≠ []) : pyMaxQ l ∈ l := by
  have key : ∀ (xs : List ℚ) (a : ℚ), xs.foldl max a = a ∨ xs.foldl max a ∈ xs := by
    intro xs
    induction xs with
    | nil => intro a; left; rfl
    | cons z zs ih =>
      intro a
      rcases ih (max a z) with heq | hmem
      · rcases max_choice a z with hm | hm
        · left
          simpa [List.foldl_cons, hm] using heq
        · right
          rw [List.foldl_cons, heq, hm]
          exact List.mem_cons_self _ _
      · right
        exact List.mem_cons_of_mem _ (by simpa [List.foldl_cons] using hmem)
  match l, h with
  | a :: xs, _ =>
    rcases key xs a with heq | hmem
    · simp [pyMaxQ, heq]
    · simp only [pyMaxQ]
      exact List.mem_cons_of_mem _ hmem

/-! ## Claims C2 and C3 -/

/-- C2 counterexample: the freshly-constructed learner is a reachable
state (it is the state at service start, and plan() on an empty roster
reads the average policy there through get_statistics), yet
get_average_strategy returns the empty mapping, whose probabilities sum
to 0 over the catalog, not 1. -/
theorem C2_counterexample :
    get_average_strategy LearnerState.start = [] ∧
    ((get_average_strategy LearnerState.start).map Prod.snd).sum ≠ 1 := by
  have h : get_average_strategy LearnerState.start = [] := by
    unfold get_average_strategy
    norm_num [catalog, LearnerState.start]
  rw [h]
  norm_num

/-- C2 (amended): for every regret vector and non-empty strategy list
the current policy (get_strategy_probabilities) is non-negative, sums
to 1, and falls back to the uniform distribution when no strategy has
positive accumulated regret; the average policy (get_average_strategy) is
keyed by the full catalog, is non-negative and sums to 1 in every learner
state with non-negative probability-sum accumulators of positive total
(that is, once at least one iteration has been recorded); in the fresh
state it instead returns the empty mapping. -/
theorem C2_policy_distributions
    (regret : Strategy → ℚ) (strategies : List Strategy) (hne : strategies ≠ [])
    (L : LearnerState) (hnn : ∀ s, 0 ≤ L.strategy_sum s)
    (hpos : 0 < (catalog.map L.strategy_sum).sum) :
    (∀ s, 0 ≤ get_strategy_probabilities regret strategies s) ∧
    (strategies.map (get_strategy_probabilities regret strategies)).sum = 1 ∧
    ((∀ s ∈ strategies, regret s ≤ 0) →
      ∀ s, get_strategy_probabilities regret strategies s = 1 / (strategies.length : ℚ)) ∧
    (get_average_strategy L).map Prod.fst = catalog ∧
    (∀ q ∈ (get_average_strategy L).map Prod.snd, 0 ≤ q) ∧
    ((get_average_strategy L).map Prod.snd).sum = 1 := by
  have havg : get_average_strategy L =
      catalog.map (fun s => (s, L.strategy_sum s / (catalog.map L.strategy_sum).sum)) := by
    unfold get_average_strategy
    simp [hpos]
  refine ⟨fun s => probs_nonneg regret strategies s, probs_sum_one regret strategies hne,
    fun h s => probs_uniform_of_nonpos regret strategies h s, ?_, ?_, ?_⟩
  · rw [havg, List.map_map]
    rfl
  · intro q hq
    rw [havg, List.map_map] at hq
    rcases List.mem_map.mp hq with ⟨t, _, rfl⟩
    exact div_nonneg (hnn t) (le_of_lt hpos)
  · rw [havg, List.map_map]
    have : ((fun x => Prod.snd x) ∘ fun s => (s, L.strategy_sum s / (catalog.map L.strategy_sum).sum)) =
        fun s => L.strategy_sum s / (catalog.map L.strategy_sum).sum := rfl
    rw [this, sum_map_div]
    exact div_self (ne_of_gt hpos)

/-- Learner state used to instantiate the C2 theorem. -/
def W2 : LearnerState :=
  { LearnerState.start with strategy_sum := fun _ => 1 }

/-- Witness for C2: the amended theorem applied to a concrete reachable-shape
learner state and the full catalog. -/
theorem C2_witness :
    (catalog ≠ []) ∧ (∀ s, 0 ≤ W2.strategy_sum s) ∧
    (0 < (catalog.map W2.strategy_sum).sum) ∧
    (((get_average_strategy W2).map Prod.snd).sum = 1) := by
  have h1 : catalog ≠ [] := by decide
  have h2 : ∀ s, 0 ≤ W2.strategy_sum s := fun _ => by norm_num [W2, LearnerState.start]
  have h3 : 0 < (catalog.map W2.strategy_sum).sum := by
    norm_num [W2, catalog, LearnerState.start]
  exact ⟨h1, h2, h3,
    (C2_policy_distributions (fun _ => 0) catalog h1 W2 h2 h3).2.2.2.2.2⟩

/-- C3: update_regrets on a non-empty value map adds values[s] − V to the
regret of every strategy s of the map (V being the expected value of the
map under the current regret-matching policy over its keys) and leaves
other regrets alone, adds max(values) − V to the cumulative regret,
appends the new cumulative total to the regret-history series, increments
the iteration counter by exactly 1, and leaves the probability-sum
accumulator alone; on an empty value map it is the identity on the
learner state. -/
theorem C3_update_regrets (sq : ℚ → ℚ) (values : Strategy → ℚ) (L : LearnerState)
    (support : List Strategy) (hne : support ≠ []) :
    update_regrets sq [] values L = L ∧
    (let probs := get_strategy_probabilities L.regret_sum support
     let V := (support.map (fun s => probs s * values s)).sum
     let best := pyMaxQ (support.map values)
     let L' := update_regrets sq support values L
     (∀ s ∈ support, L'.regret_sum s = L.regret_sum s + (values s - V)) ∧
     (∀ s ∉ support, L'.regret_sum s = L.regret_sum s) ∧
     (∀ s ∈ support, values s ≤ best) ∧ best ∈ support.map values ∧
     L'.cumulative_regret = L.cumulative_regret + (best - V) ∧
     L'.regret_history = L.regret_history ++ [L'.cumulative_regret] ∧
     L'.total_iterations = L.total_iterations + 1 ∧
     L'.strategy_sum = L.strategy_sum) := by
  refine ⟨rfl, ?_, ?_, ?_, ?_, ?_, ?_, ?_, ?_⟩
  · intro s hs
    simp [update_regrets, hne, hs]
  · intro s hs
    simp [update_regrets, hne, hs]
  · intro s hs
    exact pyMaxQ_le _ _ (List.mem_map_of_mem values hs)
  · exact pyMaxQ_mem _ (by simpa using hne)
  · simp [update_regrets, hne]
  · simp [update_regrets, hne]
  · simp [update_regrets, hne]
  · simp [update_regrets, hne]

/-- Witness for C3: the theorem applied to a concrete value map over the
full catalog and the fresh learner; the cumulative-regret effect is then
evaluated on those inputs. -/
theorem C3_witness :
    (catalog ≠ []) ∧
    (update_regrets (fun q => q) catalog (fun _ => 2) LearnerState.start).total_iterations =
      LearnerState.start.total_iterations + 1 := by
  have h1 : catalog ≠ [] := by decide
  exact ⟨h1,
    (C3_update_regrets (fun q => q) (fun _ => 2) LearnerState.start catalog h1).2.2.2.2.2.2.2.1⟩

/-! ## Strategy generator (StrategyGenerator.generate_action_sequences) -/

/-- Symbolic simulator actions: the TREAT_PATIENT_k strings and WAIT. -/
inductive SimAction : Type
  | TREAT_PATIENT (k : ℕ)
  | WAIT
deriving DecidableEq, Repr

/-- Python sorted(patients, key=lambda p: -p.urgency): a stable ascending
sort on the negated urgency, that is, a stable descending sort on
urgency. -/
def sortedByUrgencyDesc (ps : List Patient) : List Patient :=
  ps.mergeSort (fun a b => decide (b.urgency ≤ a.urgency))

/-- One patient block for the critical_first priority: per pathway step,
both agents treat a Critical patient; the nurse treats others while the
doctor waits. -/
def criticalFirstSeqs : List Patient → List SimAction × List SimAction
  | [] => ([], [])
  | p :: ps =>
    let rest := criticalFirstSeqs ps
    let block := List.replicate p.pathway.length (SimAction.TREAT_PATIENT p.id)
    if p.ptype = PType.Critical then (block ++ rest.1, block ++ rest.2)
    else (block ++ rest.1, List.replicate p.pathway.length SimAction.WAIT ++ rest.2)

/-- severity priority: both agents treat every patient sequentially. -/
def severitySeqs : List Patient → List SimAction × List SimAction
  | [] => ([], [])
  | p :: ps =>
    let rest := severitySeqs ps
    let block := List.replicate p.pathway.length (SimAction.TREAT_PATIENT p.id)
    (block ++ rest.1, block ++ rest.2)

/-- split_by_type priority: doctor gets Critical blocks, nurse the rest. -/
def splitByTypeSeqs : List Patient → List SimAction × List SimAction
  | [] => ([], [])
  | p :: ps =>
    let rest := splitByTypeSeqs ps
    let block := List.replicate p.pathway.length (SimAction.TREAT_PATIENT p.id)
    if p.ptype = PType.Critical then (rest.1, block ++ rest.2)
    else (block ++ rest.1, rest.2)

/-- fifo priority: both agents treat every patient in roster order. -/
def fifoSeqs : List Patient → List SimAction × List SimAction
  | [] => ([], [])
  | p :: ps =>
    let rest := fifoSeqs ps
    let block := List.replicate p.pathway.length (SimAction.TREAT_PATIENT p.id)
    (block ++ rest.1, block ++ rest.2)

/-- distance priority: patients are split by parity of enumeration index
(even to the nurse, odd to the doctor). -/
def distanceSeqs : ℕ → List Patient → List SimAction × List SimAction
  | _, [] => ([], [])
  | i, p :: ps =>
    let rest := distanceSeqs (i + 1) ps
    let block := List.replicate p.pathway.length (SimAction.TREAT_PATIENT p.id)
    if i % 2 = 0 then (block ++ rest.1, rest.2)
    else (rest.1, block ++ rest.2)

/-- role_based priority: nurse performs one triage action, the doctor the
remaining pathway steps. -/
def roleBasedSeqs : List Patient → List SimAction × List SimAction
  | [] => ([], [])
  | p :: ps =>
    let rest := roleBasedSeqs ps
    (SimAction.TREAT_PATIENT p.id :: rest.1,
     List.replicate (p.pathway.length - 1) (SimAction.TREAT_PATIENT p.id) ++ rest.2)

/-- Pad the shorter list with WAIT to the length of the longer one. -/
def padWait (na da : List SimAction) : List SimAction × List SimAction :=
  let maxLen := max na.length da.length
  (na ++ List.replicate (maxLen - na.length) SimAction.WAIT,
   da ++ List.replicate (maxLen - da.length) SimAction.WAIT)

/-- StrategyGenerator.generate_action_sequences. -/
def generate_action_sequences (state : GameState) (strategy : Strategy) :
    List SimAction × List SimAction :=
  let patients := state.patients
  match strategy.priority with
  | Priority.critical_first => criticalFirstSeqs (sortedByUrgencyDesc patients)
  | Priority.severity => severitySeqs (sortedByUrgencyDesc patients)
  | Priority.split_by_type =>
    let seqs := splitByTypeSeqs patients
    padWait seqs.1 seqs.2
  | Priority.fifo => fifoSeqs patients
  | Priority.distance =>
    let seqs := distanceSeqs 0 patients
    padWait seqs.1 seqs.2
  | Priority.role_based =>
    let seqs := roleBasedSeqs patients
    padWait seqs.1 seqs.2

theorem padWait_length (na da : List SimAction) :
    (padWait na da).1.length = (padWait na da).2.length := by
  simp only [padWait, List.length_append, List.length_replicate]
  omega

theorem criticalFirstSeqs_length (ps : List Patient) :
    (criticalFirstSeqs ps).1.length = (criticalFirstSeqs ps).2.length := by
  induction ps with
  | nil => rfl
  | cons p ps ih =>
    by_cases h : p.ptype = PType.Critical <;>
      simp [criticalFirstSeqs, h, ih]

theorem severitySeqs_length (ps : List Patient) :
    (severitySeqs ps).1.length = (severitySeqs ps).2.length := by
  induction ps with
  | nil => rfl
  | cons p ps ih => simp [severitySeqs, ih]

theorem fifoSeqs_length (ps : List Patient) :
    (fifoSeqs ps).1.length = (fifoSeqs ps).2.length := by
  induction ps with
  | nil => rfl
  | cons p ps ih => simp [fifoSeqs, ih]

/-- C6: for every game state and every catalog strategy, the generated
nurse and doctor symbolic action sequences have equal length (the
unequal-production priorities are padded with WAIT). -/
theorem C6_equal_length (state : GameState) (strategy : Strategy) :
    (generate_action_sequences state strategy).1.length =
      (generate_action_sequences state strategy).2.length := by
  cases strategy <;>
    simp only [generate_action_sequences, Strategy.priority] <;>
    first
      | exact criticalFirstSeqs_length _
      | exact severitySeqs_length _
      | exact fifoSeqs_length _
      | exact padWait_length _ _

/-! ## Plan compiler (DynamicRegretAnalyzer._generate_unity_commands)

The treatment_times dictionary of the analyzer holds exactly the
ROOM_TREATMENT_TIME values and is read with default 10. -/

inductive CmdAction : Type
  | ESCORT | TREAT | LEAVE_PATIENT | MOVE
deriving DecidableEq, Repr

/-- One Unity command dictionary.  MOVE fallbacks carry patient_id -1, so
the field is an integer. -/
structure UCmd : Type where
  action : CmdAction
  target : Room
  patient_id : ℤ
  duration : ℚ
  from_room : Option Room := none
deriving DecidableEq, Repr

def escortCmd (room : Room) (pid : ℕ) (fromRoom : Room) : UCmd :=
  { action := CmdAction.ESCORT, target := room, patient_id := (pid : ℤ), duration := 0,
    from_room := some fromRoom }

def treatCmd (room : Room) (pid : ℕ) : UCmd :=
  { action := CmdAction.TREAT, target := room, patient_id := (pid : ℤ),
    duration := roomTreatmentTime room 10 }

def leaveCmd (room : Room) (pid : ℕ) : UCmd :=
  { action := CmdAction.LEAVE_PATIENT, target := room, patient_id := (pid : ℤ), duration := 0 }

def moveCmd : UCmd :=
  { action := CmdAction.MOVE, target := Room.ENT, patient_id := -1, duration := 0 }

/-- The nurse and doctor commands emitted for one pathway room of one
patient, by strategy (the strategy-specific branch of the per-room loop
body).  The Python has_doctor_commands flag is set exactly in the branches
that append doctor commands, so it is recovered below as non-emptiness of
the patient's accumulated doctor list. -/
def roomCmds (strategy : Strategy) (isCritical : Bool) (pid : ℕ) (room fromRoom : Room) :
    List UCmd × List UCmd :=
  match strategy with
  | Strategy.DOCTOR_CRITICAL_NURSE_OTHERS =>
    if isCritical then ([], [escortCmd room pid fromRoom, treatCmd room pid])
    else ([escortCmd room pid fromRoom, treatCmd room pid], [])
  | Strategy.NURSE_TRIAGE_DOCTOR_TREAT =>
    if room = Room.TRIAGE then
      ([escortCmd room pid fromRoom, treatCmd room pid, leaveCmd room pid], [])
    else ([], [escortCmd room pid fromRoom, treatCmd room pid])
  | Strategy.PARALLEL_CRITICAL =>
    if isCritical then
      ([escortCmd room pid fromRoom, treatCmd room pid],
       [escortCmd room pid fromRoom, treatCmd room pid])
    else ([escortCmd room pid fromRoom, treatCmd room pid], [])
  | Strategy.COOPERATIVE_ALL =>
    ([escortCmd room pid fromRoom, treatCmd room pid],
     [escortCmd room pid fromRoom, treatCmd room pid])
  | _ =>
    ([escortCmd room pid fromRoom, treatCmd room pid],
     if isCritical ∧ (room = Room.TB ∨ room = Room.ICU) then
       [escortCmd room pid fromRoom, treatCmd room pid]
     else [])

/-- The per-room loop over one patient's pathway, threading the
patient_locations entry of this patient (initially WAITING; the Python
dict is keyed by patient id, which coincides with this per-patient
threading on every roster with distinct ids — the from_room field is not
inspected by any property below). -/
def patientPathwayCmds (strategy : Strategy) (isCritical : Bool) (pid : ℕ) :
    List Room → Room → List UCmd × List UCmd
  | [], _ => ([], [])
  | room :: rest, fromRoom =>
    let here := roomCmds strategy isCritical pid room fromRoom
    let later := patientPathwayCmds strategy isCritical pid rest room
    (here.1 ++ later.1, here.2 ++ later.2)

/-- All commands of one patient, including the trailing doctor
LEAVE_PATIENT for ICU-final patients that received doctor commands. -/
def patientCmds (strategy : Strategy) (p : Patient) : List UCmd × List UCmd :=
  let main := patientPathwayCmds strategy (decide (p.ptype = PType.Critical)) p.id
    p.pathway Room.WAITING
  if p.pathway ≠ [] ∧ p.pathway.getLast? = some Room.ICU ∧ main.2 ≠ [] then
    (main.1, main.2 ++ [leaveCmd Room.ICU p.id])
  else main

/-- The roster ordering applied before the per-patient loop. -/
def orderedPatients (strategy : Strategy) (patients : List Patient) : List Patient :=
  match strategy.priority with
  | Priority.critical_first => sortedByUrgencyDesc patients
  | Priority.severity => sortedByUrgencyDesc patients
  | _ => patients

/-- Concatenation of the per-patient command blocks (the Python loop
appends each patient's commands to the two shared accumulator lists). -/
def concatCmds (strategy : Strategy) : List Patient → List UCmd × List UCmd
  | [] => ([], [])
  | p :: ps =>
    let here := patientCmds strategy p
    let rest := concatCmds strategy ps
    (here.1 ++ rest.1, here.2 ++ rest.2)

/-- The primary strategy-specific generation of _generate_unity_commands,
before the defensive verification/repair pass and the non-emptiness
fallback. -/
def generatePrimary (strategy : Strategy) (state : GameState) : List UCmd × List UCmd :=
  concatCmds strategy (orderedPatients strategy state.patients)

/-- Whether the verification pass counts a given patient id as covered by
the nurse command list: some ESCORT or TREAT nurse command carries this
(positive) patient id. -/
def nurseCovered (nurse_commands : List UCmd) (pid : ℕ) : Bool :=
  nurse_commands.any fun c =>
    decide ((c.action = CmdAction.ESCORT ∨ c.action = CmdAction.TREAT) ∧
      0 < c.patient_id ∧ c.patient_id = (pid : ℤ))

/-- The patients the verification pass computes as missed (the Python
missing_patients set, materialized in roster order; the claims below only
depend on its emptiness). -/
def missedPatients (strategy : Strategy) (state : GameState) : List ℕ :=
  let nurse_cmds := (generatePrimary strategy state).1
  (((orderedPatients strategy state.patients).map Patient.id).filter
    (fun pid => ¬ nurseCovered nurse_cmds pid)).dedup

/-- DynamicRegretAnalyzer._generate_unity_commands: primary generation,
then nurse-only fallback blocks for every missed patient, then the MOVE
fallback guaranteeing non-emptiness of both lists. -/
def generateUnityCommands (strategy : Strategy) (state : GameState) :
    List UCmd × List UCmd :=
  let prim := generatePrimary strategy state
  let fallback := (missedPatients strategy state).flatMap fun pid =>
    match (orderedPatients strategy state.patients).find? (fun p => decide (p.id = pid)) with
    | none => []
    | some p => p.pathway.flatMap fun room =>
        [escortCmd room pid Room.WAITING, treatCmd room pid]
  let nurse := prim.1 ++ fallback
  ((if nurse = [] then [moveCmd] else nurse),
   (if prim.2 = [] then [moveCmd] else prim.2))

/-! ## Coverage analysis of the plan compiler (claims C4 and C5) -/

/-- The TREAT targets carried by a command list for a given patient id, in
list order. -/
def treatTargets (cmds : List UCmd) (pid : ℕ) : List Room :=
  (cmds.filter fun c =>
    decide (c.action = CmdAction.TREAT ∧ c.patient_id = (pid : ℤ))).map UCmd.target

/-- Which pathway rooms of a patient (critical or not) receive a nurse
TREAT under each strategy. -/
def nurseMask : Strategy → Bool → Room → Bool
  | Strategy.DOCTOR_CRITICAL_NURSE_OTHERS, crit, _ => !crit
  | Strategy.NURSE_TRIAGE_DOCTOR_TREAT, _, r => decide (r = Room.TRIAGE)
  | _, _, _ => true

/-- Which pathway rooms of a patient receive a doctor TREAT under each
strategy. -/
def doctorMask : Strategy → Bool → Room → Bool
  | Strategy.DOCTOR_CRITICAL_NURSE_OTHERS, crit, _ => crit
  | Strategy.NURSE_TRIAGE_DOCTOR_TREAT, _, r => decide (¬ r = Room.TRIAGE)
  | Strategy.PARALLEL_CRITICAL, crit, _ => crit
  | Strategy.COOPERATIVE_ALL, _, _ => true
  | _, crit, r => crit && (decide (r = Room.TB) || decide (r = Room.ICU))

theorem masks_cover (strategy : Strategy) (crit : Bool) (r : Room) :
    nurseMask strategy crit r = true ∨ doctorMask strategy crit r = true := by
  cases strategy <;> cases crit <;>
    simp [nurseMask, doctorMask] <;>
    rcases eq_or_ne r Room.TRIAGE with h | h <;> simp [h]

theorem treatTargets_append (a b : List UCmd) (pid : ℕ) :
    treatTargets (a ++ b) pid = treatTargets a pid ++ treatTargets b pid := by
  simp [treatTargets]

theorem treatTargets_roomCmds (strategy : Strategy) (crit : Bool) (pid : ℕ)
    (room fromRoom : Room) :
    treatTargets (roomCmds strategy crit pid room fromRoom).1 pid =
      (if nurseMask strategy crit room then [room] else []) ∧
    treatTargets (roomCmds strategy crit pid room fromRoom).2 pid =
      (if doctorMask strategy crit room then [room] else []) := by
  cases strategy <;> cases crit <;>
    refine ⟨?_, ?_⟩ <;>
    simp only [roomCmds, nurseMask, doctorMask] <;>
    split_ifs <;>
    simp_all [treatTargets, escortCmd, treatCmd, leaveCmd, List.filter]

theorem treatTargets_pathwayCmds (strategy : Strategy) (crit : Bool) (pid : ℕ)
    (pw : List Room) (fromRoom : Room) :
    treatTargets (patientPathwayCmds strategy crit pid pw fromRoom).1 pid =
      pw.filter (nurseMask strategy crit) ∧
    treatTargets (patientPathwayCmds strategy crit pid pw fromRoom).2 pid =
      pw.filter (doctorMask strategy crit) := by
  induction pw generalizing fromRoom with
  | nil => exact ⟨rfl, rfl⟩
  | cons room rest ih =>
    have hr := treatTargets_roomCmds strategy crit pid room fromRoom
    have hi := ih room
    constructor <;>
      [skip; skip] <;>
      simp only [patientPathwayCmds, treatTargets_append, hr.1, hr.2, hi.1, hi.2,
        List.filter_cons] <;>
      [rcases h : nurseMask strategy crit room with _ | _;
       rcases h : doctorMask strategy crit room with _ | _] <;>
      simp [h]

theorem treatTargets_leave (l : List UCmd) (room : Room) (qid pid : ℕ) :
    treatTargets (l ++ [leaveCmd room qid]) pid = treatTargets l pid := by
  simp [treatTargets_append, treatTargets, leaveCmd, List.filter]

theorem treatTargets_patientCmds (strategy : Strategy) (p : Patient) :
    treatTargets (patientCmds strategy p).1 p.id =
      p.pathway.filter (nurseMask strategy (decide (p.ptype = PType.Critical))) ∧
    treatTargets (patientCmds strategy p).2 p.id =
      p.pathway.filter (doctorMask strategy (decide (p.ptype = PType.Critical))) := by
  have h := treatTargets_pathwayCmds strategy (decide (p.ptype = PType.Critical)) p.id
    p.pathway Room.WAITING
  by_cases hc : p.pathway ≠ [] ∧ p.pathway.getLast? = some Room.ICU ∧
      (patientPathwayCmds strategy (decide (p.ptype = PType.Critical)) p.id
        p.pathway Room.WAITING).2 ≠ []
  · simp only [patientCmds, if_pos hc]
    exact ⟨h.1, by rw [treatTargets_leave]; exact h.2⟩
  · simp only [patientCmds, if_neg hc]
    exact h

theorem roomCmdsPidOne (strategy : Strategy) (crit : Bool) (pid : ℕ) (room fromRoom : Room)
    (c : UCmd) (hc : c ∈ (roomCmds strategy crit pid room fromRoom).1) :
    c.patient_id = (pid : ℤ) := by
  cases strategy <;>
    simp only [roomCmds] at hc <;>
    (try split_ifs at hc) <;>
    simp only [escortCmd, treatCmd, leaveCmd, List.mem_cons, List.mem_singleton,
      List.not_mem_nil, or_false, false_or] at hc <;>
    first
      | exact hc.elim
      | (rcases hc with rfl | rfl | rfl <;> rfl)
      | (rcases hc with rfl | rfl <;> rfl)
      | (rcases hc with rfl <;> rfl)
      | (rcases hc with rfl; rfl)

theorem roomCmdsPidTwo (strategy : Strategy) (crit : Bool) (pid : ℕ) (room fromRoom : Room)
    (c : UCmd) (hc : c ∈ (roomCmds strategy crit pid room fromRoom).2) :
    c.patient_id = (pid : ℤ) := by
  cases strategy <;>
    simp only [roomCmds] at hc <;>
    (try split_ifs at hc) <;>
    simp only [escortCmd, treatCmd, leaveCmd, List.mem_cons, List.mem_singleton,
      List.not_mem_nil, or_false, false_or] at hc <;>
    first
      | exact hc.elim
      | (rcases hc with rfl | rfl | rfl <;> rfl)
      | (rcases hc with rfl | rfl <;> rfl)
      | (rcases hc with rfl <;> rfl)
      | (rcases hc with rfl; rfl)

theorem pathwayCmdsPidOne (strategy : Strategy) (crit : Bool) (pid : ℕ) (pw : List Room)
    (fromRoom : Room) (c : UCmd)
    (hc : c ∈ (patientPathwayCmds strategy crit pid pw fromRoom).1) :
    c.patient_id = (pid : ℤ) := by
  induction pw generalizing fromRoom with
  | nil => simp [patientPathwayCmds] at hc
  | cons room rest ih =>
    simp only [patientPathwayCmds, List.mem_append] at hc
    rcases hc with hc | hc
    · exact roomCmdsPidOne strategy crit pid room fromRoom c hc
    · exact ih room hc

theorem pathwayCmdsPidTwo (strategy : Strategy) (crit : Bool) (pid : ℕ) (pw : List Room)
    (fromRoom : Room) (c : UCmd)
    (hc : c ∈ (patientPathwayCmds strategy crit pid pw fromRoom).2) :
    c.patient_id = (pid : ℤ) := by
  induction pw generalizing fromRoom with
  | nil => simp [patientPathwayCmds] at hc
  | cons room rest ih =>
    simp only [patientPathwayCmds, List.mem_append] at hc
    rcases hc with hc | hc
    · exact roomCmdsPidTwo strategy crit pid room fromRoom c hc
    · exact ih room hc

theorem patientCmdsPid (strategy : Strategy) (q : Patient) (c : UCmd)
    (hc : c ∈ (patientCmds strategy q).1 ∨ c ∈ (patientCmds strategy q).2) :
    c.patient_id = (q.id : ℤ) := by
  by_cases hcnd : q.pathway ≠ [] ∧ q.pathway.getLast? = some Room.ICU ∧
      (patientPathwayCmds strategy (decide (q.ptype = PType.Critical)) q.id
        q.pathway Room.WAITING).2 ≠ []
  · simp only [patientCmds, if_pos hcnd] at hc
    rcases hc with hc | hc
    · exact pathwayCmdsPidOne _ _ _ _ _ _ hc
    · rcases List.mem_append.mp hc with hc | hc
      · exact pathwayCmdsPidTwo _ _ _ _ _ _ hc
      · rcases List.mem_singleton.mp hc with rfl
        rfl
  · simp only [patientCmds, if_neg hcnd] at hc
    rcases hc with hc | hc
    · exact pathwayCmdsPidOne _ _ _ _ _ _ hc
    · exact pathwayCmdsPidTwo _ _ _ _ _ _ hc

theorem treatTargets_patientCmds_ne (strategy : Strategy) (q : Patient) (pid : ℕ)
    (h : q.id ≠ pid) :
    treatTargets (patientCmds strategy q).1 pid = [] ∧
    treatTargets (patientCmds strategy q).2 pid = [] := by
  constructor <;>
  · unfold treatTargets
    rw [List.filter_eq_nil_iff.mpr, List.map_nil]
    intro c hc
    have hid := patientCmdsPid strategy q c (by first | exact Or.inl hc | exact Or.inr hc)
    simp [hid, h]

theorem treatTargets_concat_ne (strategy : Strategy) (ps : List Patient) (pid : ℕ)
    (h : ∀ q ∈ ps, q.id ≠ pid) :
    treatTargets (concatCmds strategy ps).1 pid = [] ∧
    treatTargets (concatCmds strategy ps).2 pid = [] := by
  induction ps with
  | nil => exact ⟨rfl, rfl⟩
  | cons q qs ih =>
    have h1 := treatTargets_patientCmds_ne strategy q pid (h q (List.mem_cons_self q qs))
    have h2 := ih fun r hr => h r (List.mem_cons_of_mem q hr)
    simp [concatCmds, treatTargets_append, h1.1, h1.2, h2.1, h2.2]

theorem treatTargets_concat (strategy : Strategy) (ps : List Patient) (p : Patient)
    (hp : p ∈ ps) (hn : (ps.map Patient.id).Nodup) :
    treatTargets (concatCmds strategy ps).1 p.id =
      treatTargets (patientCmds strategy p).1 p.id ∧
    treatTargets (concatCmds strategy ps).2 p.id =
      treatTargets (patientCmds strategy p).2 p.id := by
  induction ps with
  | nil => cases hp
  | cons q qs ih =>
    rw [List.map_cons, List.nodup_cons] at hn
    rcases List.mem_cons.mp hp with rfl | hptl
    · have hqs : ∀ r ∈ qs, r.id ≠ p.id := by
        intro r hr rid
        exact hn.1 (rid ▸ List.mem_map_of_mem Patient.id hr)
      have ht := treatTargets_concat_ne strategy qs p.id hqs
      simp [concatCmds, treatTargets_append, ht.1, ht.2]
    · have hqid : q.id ≠ p.id := fun e => hn.1 (e ▸ List.mem_map_of_mem Patient.id hptl)
      have h1 := treatTargets_patientCmds_ne strategy q p.id hqid
      have h2 := ih hptl hn.2
      simp [concatCmds, treatTargets_append, h1.1, h1.2, h2.1, h2.2]

theorem orderedPatients_perm (strategy : Strategy) (ps : List Patient) :
    (orderedPatients strategy ps).Perm ps := by
  cases strategy <;>
    first
      | exact List.mergeSort_perm ps _
      | exact List.Perm.refl ps

/-- C4: for every roster with distinct patient ids and every catalog
strategy, each agent's TREAT commands for a patient are exactly a
mask-selection of that patient's pathway (hence appear in pathway order),
and the two masks jointly cover every pathway position — so the union of
the TREAT commands of the two lists contains an entry per pathway
location, in order.  This is about the primary strategy-specific
generation (generatePrimary), with the defensive repair pass disabled. -/
theorem C4_coverage (strategy : Strategy) (state : GameState)
    (hids : (state.patients.map Patient.id).Nodup) :
    ∀ p ∈ state.patients, ∃ f1 f2 : Room → Bool,
      (∀ r, f1 r = true ∨ f2 r = true) ∧
      treatTargets (generatePrimary strategy state).1 p.id = p.pathway.filter f1 ∧
      treatTargets (generatePrimary strategy state).2 p.id = p.pathway.filter f2 := by
  intro p hp
  have hperm := orderedPatients_perm strategy state.patients
  have hpo : p ∈ orderedPatients strategy state.patients := hperm.mem_iff.mpr hp
  have hn : ((orderedPatients strategy state.patients).map Patient.id).Nodup :=
    (List.Perm.nodup_iff (hperm.map Patient.id)).mpr hids
  have hc := treatTargets_concat strategy _ p hpo hn
  have hpc := treatTargets_patientCmds strategy p
  refine ⟨nurseMask strategy (decide (p.ptype = PType.Critical)),
    doctorMask strategy (decide (p.ptype = PType.Critical)),
    fun r => masks_cover _ _ r, ?_, ?_⟩
  · rw [generatePrimary, hc.1, hpc.1]
  · rw [generatePrimary, hc.2, hpc.2]

/-- Roster used to instantiate C4: one Minor and one Critical patient, as
spawned for the respective tiers. -/
def pMinorW : Patient :=
  { id := 1, ptype := PType.Minor, health := 70, pathway := pathways PType.Minor }

def pCritW : Patient :=
  { id := 2, ptype := PType.Critical, health := 30, pathway := pathways PType.Critical }

def stW4 : GameState := { patients := [pMinorW, pCritW] }

/-- Witness for C4: the coverage theorem applied to the two-patient roster
above under the triage-then-specialist strategy. -/
theorem C4_witness :
    ((stW4.patients.map Patient.id).Nodup) ∧
    (∃ f1 f2 : Room → Bool,
      (∀ r, f1 r = true ∨ f2 r = true) ∧
      treatTargets (generatePrimary Strategy.NURSE_TRIAGE_DOCTOR_TREAT stW4).1 pMinorW.id =
        pMinorW.pathway.filter f1 ∧
      treatTargets (generatePrimary Strategy.NURSE_TRIAGE_DOCTOR_TREAT stW4).2 pMinorW.id =
        pMinorW.pathway.filter f2) := by
  have hids : (stW4.patients.map Patient.id).Nodup := by
    simp [stW4, pMinorW, pCritW]
  exact ⟨hids, C4_coverage Strategy.NURSE_TRIAGE_DOCTOR_TREAT stW4 hids pMinorW
    (List.mem_cons_self _ _)⟩

theorem mem_concatCmds_nurse (strategy : Strategy) (ps : List Patient) (p : Patient)
    (hp : p ∈ ps) (c : UCmd) (hc : c ∈ (patientCmds strategy p).1) :
    c ∈ (concatCmds strategy ps).1 := by
  induction ps with
  | nil => cases hp
  | cons q qs ih =>
    rcases List.mem_cons.mp hp with rfl | hptl
    · exact List.mem_append.mpr (Or.inl hc)
    · exact List.mem_append.mpr (Or.inr (ih hptl))

theorem nurse_treat_room_exists (strategy : Strategy) (p : Patient)
    (hpw : p.pathway ≠ []) (htr : Room.TRIAGE ∈ p.pathway)
    (hok : strategy ≠ Strategy.DOCTOR_CRITICAL_NURSE_OTHERS ∨ p.ptype ≠ PType.Critical) :
    ∃ r ∈ p.pathway, nurseMask strategy (decide (p.ptype = PType.Critical)) r = true := by
  cases strategy
  case DOCTOR_CRITICAL_NURSE_OTHERS =>
    rcases hok with h | h
    · exact absurd rfl h
    · rcases List.exists_mem_of_ne_nil p.pathway hpw with ⟨r, hr⟩
      exact ⟨r, hr, by simp [nurseMask, h]⟩
  case NURSE_TRIAGE_DOCTOR_TREAT =>
    exact ⟨Room.TRIAGE, htr, by simp [nurseMask]⟩
  all_goals
    rcases List.exists_mem_of_ne_nil p.pathway hpw with ⟨r, hr⟩
    exact ⟨r, hr, rfl⟩

/-- The single spawned Critical patient. -/
def pCrit5 : Patient :=
  { id := 1, ptype := PType.Critical, health := 30, pathway := pathways PType.Critical }

/-- The roster holding the single spawned Critical patient. -/
def stCrit5 : GameState := { patients := [pCrit5] }

/-- C5 counterexample: on a roster holding the single spawned Critical
patient (id 1), under the DOCTOR_CRITICAL_NURSE_OTHERS strategy, the
verification pass finds patient 1 missed (it checks nurse coverage only,
and that strategy assigns Critical patients to the doctor alone), so it
synthesizes a six-command nurse fallback block — the pass fires. -/
theorem C5_counterexample :
    missedPatients Strategy.DOCTOR_CRITICAL_NURSE_OTHERS stCrit5 = [1] ∧
    (generatePrimary Strategy.DOCTOR_CRITICAL_NURSE_OTHERS stCrit5).1 = [] ∧
    (generateUnityCommands Strategy.DOCTOR_CRITICAL_NURSE_OTHERS stCrit5).1.length = 6 := by
  refine ⟨?_, ?_, ?_⟩ <;> decide

/-- C5 (amended): the defensive repair pass checks that every patient has
at least one nurse ESCORT/TREAT command, so for every roster of patients
with positive ids and non-empty pathways containing TRIAGE it never fires
under five of the six strategies; under DOCTOR_CRITICAL_NURSE_OTHERS it
never fires exactly when the roster has no Critical patient (the
counterexample shows it does fire with one). -/
theorem C5_repair_pass (strategy : Strategy) (state : GameState)
    (hpw : ∀ p ∈ state.patients, p.pathway ≠ [] ∧ Room.TRIAGE ∈ p.pathway ∧ 1 ≤ p.id)
    (hok : strategy ≠ Strategy.DOCTOR_CRITICAL_NURSE_OTHERS ∨
      ∀ p ∈ state.patients, p.ptype ≠ PType.Critical) :
    missedPatients strategy state = [] := by
  unfold missedPatients
  rw [List.dedup_eq_nil, List.filter_eq_nil_iff]
  intro pid hpid
  simp only [List.mem_map] at hpid
  rcases hpid with ⟨p, hpo, rfl⟩
  have hperm := orderedPatients_perm strategy state.patients
  have hp : p ∈ state.patients := hperm.mem_iff.mp hpo
  rcases hpw p hp with ⟨h1, h2, h3⟩
  have hok' : strategy ≠ Strategy.DOCTOR_CRITICAL_NURSE_OTHERS ∨ p.ptype ≠ PType.Critical := by
    rcases hok with h | h
    · exact Or.inl h
    · exact Or.inr (h p hp)
  rcases nurse_treat_room_exists strategy p h1 h2 hok' with ⟨r, hr, hf⟩
  have hfil : p.pathway.filter (nurseMask strategy (decide (p.ptype = PType.Critical))) ≠ [] :=
    List.ne_nil_of_mem (List.mem_filter.mpr ⟨hr, hf⟩)
  have htt : treatTargets (patientCmds strategy p).1 p.id ≠ [] := by
    rw [(treatTargets_patientCmds strategy p).1]
    exact hfil
  unfold treatTargets at htt
  rcases List.exists_mem_of_ne_nil _ htt with ⟨room, hroom⟩
  rcases List.mem_map.mp hroom with ⟨c, hcf, _⟩
  rcases List.mem_filter.mp hcf with ⟨hcmem, hcprop⟩
  have hcprop' : c.action = CmdAction.TREAT ∧ c.patient_id = (p.id : ℤ) := by
    simpa using hcprop
  have hcin : c ∈ (generatePrimary strategy state).1 :=
    mem_concatCmds_nurse strategy _ p hpo c hcmem
  have hcov : nurseCovered (generatePrimary strategy state).1 p.id = true := by
    apply List.any_eq_true.mpr
    refine ⟨c, hcin, ?_⟩
    have hpos : (0 : ℤ) < c.patient_id := by
      rw [hcprop'.2]
      have h0 : 0 < p.id := h3
      exact_mod_cast h0
    rw [decide_eq_true_eq]
    exact ⟨Or.inr hcprop'.1, hpos, hcprop'.2⟩
  simp [hcov]

/-- Witness for C5: the amended theorem applied to the two-patient roster
used for C4 under the always-cooperative strategy. -/
theorem C5_witness :
    (∀ p ∈ stW4.patients, p.pathway ≠ [] ∧ Room.TRIAGE ∈ p.pathway ∧ 1 ≤ p.id) ∧
    missedPatients Strategy.COOPERATIVE_ALL stW4 = [] := by
  have hpw : ∀ p ∈ stW4.patients, p.pathway ≠ [] ∧ Room.TRIAGE ∈ p.pathway ∧ 1 ≤ p.id := by
    intro p hp
    rcases List.mem_cons.mp hp with rfl | hp'
    · exact ⟨by simp [pMinorW, pathways], by simp [pMinorW, pathways], by simp [pMinorW]⟩
    · rcases List.mem_singleton.mp hp' with rfl
      exact ⟨by simp [pCritW, pathways], by simp [pCritW, pathways], by simp [pCritW]⟩
  exact ⟨hpw, C5_repair_pass Strategy.COOPERATIVE_ALL stW4 hpw
    (Or.inl (by simp))⟩

/-! ## Game simulator (class GameSimulator)

room_distance computes a Euclidean distance with math.sqrt, which is
irrational for the fixed room coordinates (and the topology is runtime
configurable via set_rooms); it is abstracted below by a `dist` function
parameter, and every simulator theorem is proved for all such functions.
Travel time only delays busy-until timestamps and never enters a health
or step computation. -/

def nurse_speed : ℚ := 4
def doctor_speed : ℚ := 5/2

/-- The metrics dictionary built by simulate_action_sequence. -/
structure Metrics : Type where
  total_healing : ℚ := 0
  total_penalty : ℚ := 0
  patients_completed : ℕ := 0
  cooperation_events : ℕ := 0
  idle_time : ℚ := 0
deriving DecidableEq, Repr

/-- Per-patient effect of apply_waiting_penalties: untreated patients
accrue waiting time and lose health, floored at 0. -/
def penalizePatient (dt : ℚ) (p : Patient) : Patient :=
  if p.being_treated_by = [] then
    { p with waiting_time := p.waiting_time + dt,
             health := max 0 (p.health + waitingPenalty p.ptype * dt) }
  else p

/-- The penalty total accumulated by one apply_waiting_penalties pass. -/
def penaltyOf (dt : ℚ) (ps : List Patient) : ℚ :=
  (ps.map fun p => if p.being_treated_by = [] then waitingPenalty p.ptype * dt else 0).sum

/-- GameSimulator.apply_waiting_penalties: returns the updated state and
the (negative) penalty it returned. -/
def apply_waiting_penalties (st : GameState) (dt : ℚ) : GameState × ℚ :=
  let pen := penaltyOf dt st.patients
  ({ st with patients := st.patients.map (penalizePatient dt),
             total_penalty := st.total_penalty + pen }, pen)

/-- The healing amount computed by GameSimulator.treat_patient. -/
def treatHealing (agent : Agent) (room : Room) (duration : ℚ) (cooperative : Bool) : ℚ :=
  let base_power := if agent = Agent.doctor then DOCTOR_HEALING_POWER else NURSE_HEALING_POWER
  let base_power := if cooperative then base_power * COOPERATIVE_BONUS else base_power
  base_power * roomEffectiveness room (1/5) * (duration / roomTreatmentTime room 10)

/-- GameSimulator.treat_patient, patient part: heal (capped at 100),
advance the step, and report the reward and whether the pathway finished;
the caller applies the total_reward / completed_patients state updates. -/
def treatPatientP (p : Patient) (agent : Agent) (duration : ℚ) (cooperative : Bool) :
    Patient × ℚ × Bool :=
  match p.next_room with
  | none => (p, 0, false)
  | some room =>
    let healing := treatHealing agent room duration cooperative
    let p1 := { p with health := min 100 (p.health + healing),
                       current_step := p.current_step + 1 }
    let reward := if p1.is_complete then healing + completionReward p.ptype else healing
    (p1, reward, p1.is_complete)

/-- GameSimulator._execute_agent_action.  TREAT_PATIENT_k addresses the
patient at index k-1 of the current patient list (the generators only emit
k ≥ 1; Python's negative-index semantics for k = 0 is outside every call
site and not modelled). -/
def executeAgentAction (dist : Room → Room → ℚ) (st : GameState) (agent : Agent)
    (action : SimAction) (m : Metrics) : GameState × Metrics × ℚ :=
  match action with
  | SimAction.TREAT_PATIENT k =>
    let pidx := k - 1
    match st.patients.get? pidx with
    | none => (st, m, 0)
    | some p =>
      match p.next_room with
      | none => (st, m, 0)
      | some room =>
        let current_pos := if agent = Agent.nurse then st.nurse_pos else st.doctor_pos
        let travel_time := dist current_pos room /
          (if agent = Agent.nurse then nurse_speed else doctor_speed)
        let treatment_time := roomTreatmentTime room 10
        let cooperative := p.being_treated_by ≠ []
        let m1 := if cooperative then
            { m with cooperation_events := m.cooperation_events + 1 } else m
        let busy_until := st.current_time + travel_time + treatment_time
        let st1 := if agent = Agent.nurse then
            { st with nurse_busy_until := busy_until, nurse_pos := room }
          else { st with doctor_busy_until := busy_until, doctor_pos := room }
        let p1 := { p with being_treated_by := p.being_treated_by ++ [agent] }
        let tr := treatPatientP p1 agent treatment_time cooperative
        let p3 := { tr.1 with being_treated_by := tr.1.being_treated_by.erase agent }
        ({ st1 with
            patients := st1.patients.set pidx p3,
            total_reward := st1.total_reward + tr.2.1,
            completed_patients :=
              if tr.2.2 then st1.completed_patients + 1 else st1.completed_patients },
         m1, tr.2.1)
  | SimAction.WAIT =>
    let m1 := { m with idle_time := m.idle_time + 1 }
    if agent = Agent.nurse then
      ({ st with nurse_busy_until := st.current_time + 1 }, m1, 0)
    else
      ({ st with doctor_busy_until := st.current_time + 1 }, m1, 0)

/-- The dead-patient removal step of the simulation loop: each dead
patient costs a fixed 50 penalty and leaves the roster. -/
def removeDead (st : GameState) (m : Metrics) : GameState × Metrics :=
  let dead := st.patients.filter fun p => decide (p.health ≤ 0)
  ({ st with patients := st.patients.filter fun p => decide (¬ p.health ≤ 0),
             total_penalty := st.total_penalty - 50 * dead.length },
   { m with total_penalty := m.total_penalty + 50 * dead.length })

/-- The completed-patient removal step of the simulation loop. -/
def removeCompleted (st : GameState) (m : Metrics) : GameState × Metrics :=
  let comp := st.patients.filter fun p => p.is_complete
  ({ st with patients := st.patients.filter fun p => ! p.is_complete },
   { m with patients_completed := m.patients_completed + comp.length })

/-- State threaded through the simulation while-loop. -/
structure SimLoop : Type where
  st : GameState
  m : Metrics
  ni : ℕ
  di : ℕ

/-- The per-agent step of the simulation loop: if the agent is free (its
busy-until time has elapsed) and its queue still has entries, execute the
next action, add the returned reward to the healing metric, and advance
the agent's queue index. -/
def agentStep (dist : Room → Room → ℚ) (agent : Agent) (acts : List SimAction) (idx : ℕ)
    (stm : GameState × Metrics) : (GameState × Metrics) × ℕ :=
  let busy := if agent = Agent.nurse then stm.1.nurse_busy_until else stm.1.doctor_busy_until
  if busy ≤ stm.1.current_time ∧ idx < acts.length then
    let ex := executeAgentAction dist stm.1 agent (acts.getD idx SimAction.WAIT) stm.2
    ((ex.1, { ex.2.1 with total_healing := ex.2.1.total_healing + ex.2.2 }), idx + 1)
  else (stm, idx)

/-- One iteration of the while-loop of simulate_action_sequence: waiting
penalties, dead removal, one pending nurse action, one pending doctor
action, completed removal, clock advance. -/
def simBody (dist : Room → Room → ℚ) (nurse_actions doctor_actions : List SimAction)
    (s : SimLoop) : SimLoop :=
  let ap := apply_waiting_penalties s.st 1
  let rd := removeDead ap.1 { s.m with total_penalty := s.m.total_penalty + |ap.2| }
  let ns := agentStep dist Agent.nurse nurse_actions s.ni rd
  let ds := agentStep dist Agent.doctor doctor_actions s.di ns.1
  let rc := removeCompleted ds.1.1 ds.1.2
  { st := { rc.1 with current_time := rc.1.current_time + 1 },
    m := rc.2, ni := ns.2, di := ds.2 }

/-- The while-loop, fuelled; the guard is re-checked before every
iteration, and the fuel below is always sufficient because each iteration
advances the clock by one. -/
def simLoop (dist : Room → Room → ℚ) (na da : List SimAction) (simulation_time : ℚ) :
    ℕ → SimLoop → SimLoop
  | 0, s => s
  | fuel + 1, s =>
    if s.st.current_time < simulation_time ∧ s.st.patients ≠ [] then
      simLoop dist na da simulation_time fuel (simBody dist na da s)
    else s

/-- GameSimulator.simulate_action_sequence: clone the caller's state, run
the loop, return the final state and metrics. -/
def simulate_action_sequence (dist : Room → Room → ℚ) (initial_state : GameState)
    (na da : List SimAction) (simulation_time : ℚ := 100) : GameState × Metrics :=
  let st := initial_state.clone
  let fuel := (simulation_time - st.current_time).ceil.toNat
  let r := simLoop dist na da simulation_time fuel { st := st, m := {}, ni := 0, di := 0 }
  (r.st, r.m)

/-! ## Analyzer roster operations (DynamicRegretAnalyzer) -/

/-- The roster-facing part of DynamicRegretAnalyzer's state (the learner
part is threaded separately below). -/
structure Analyzer : Type where
  patient_counter : ℕ := 0
  current_state : Option GameState := none
deriving DecidableEq, Repr

/-- DynamicRegretAnalyzer.spawn_patient. -/
def spawn_patient (A : Analyzer) (ptype : PType) : Analyzer × Patient :=
  let counter := A.patient_counter + 1
  let patient : Patient :=
    { id := counter, ptype := ptype, health := initialHealth ptype,
      pathway := pathways ptype, deadline := defaultDeadline ptype,
      doctor_required := decide (ptype = PType.Critical) }
  let st := match A.current_state with
    | none => ({} : GameState)
    | some st => st
  ({ patient_counter := counter,
     current_state := some { st with patients := st.patients ++ [patient] } }, patient)

/-- The roster walk of DynamicRegretAnalyzer.step_patient: the first
patient with the given id has its step incremented unless already
complete; returns whether that patient is now complete. -/
def stepFirst (pid : ℕ) : List Patient → List Patient × Bool
  | [] => ([], false)
  | p :: ps =>
    if p.id = pid then
      let p' := if p.is_complete then p else { p with current_step := p.current_step + 1 }
      (p' :: ps, p'.is_complete)
    else
      let r := stepFirst pid ps
      (p :: r.1, r.2)

/-- DynamicRegretAnalyzer.step_patient. -/
def step_patient (A : Analyzer) (pid : ℕ) : Analyzer × Bool :=
  match A.current_state with
  | none => (A, false)
  | some st =>
    let r := stepFirst pid st.patients
    ({ A with current_state := some { st with patients := r.1 } }, r.2)

/-! ## Claim C8: patient bound invariants -/

/-- The per-patient invariant of the claim. -/
def PatientInv (p : Patient) : Prop :=
  0 ≤ p.health ∧ p.health ≤ 100 ∧ p.current_step ≤ p.pathway.length

/-- The invariant over a scenario state. -/
def StateInv (st : GameState) : Prop := ∀ p ∈ st.patients, PatientInv p

/-- The invariant over the analyzer's optional scenario. -/
def AnalyzerInv (A : Analyzer) : Prop :=
  ∀ st, A.current_state = some st → StateInv st

theorem waitingPenalty_nonpos (t : PType) : waitingPenalty t ≤ 0 := by
  cases t <;> norm_num [waitingPenalty]

theorem roomEffectiveness_pos (r : Room) : 0 < roomEffectiveness r (1/5) := by
  cases r <;> norm_num [roomEffectiveness]

theorem roomTreatmentTime_pos (r : Room) : 0 < roomTreatmentTime r 10 := by
  cases r <;> norm_num [roomTreatmentTime]

theorem treatHealing_nonneg (agent : Agent) (room : Room) (duration : ℚ)
    (hd : 0 ≤ duration) (cooperative : Bool) :
    0 ≤ treatHealing agent room duration cooperative := by
  unfold treatHealing
  have h1 : (0:ℚ) ≤ (if agent = Agent.doctor then DOCTOR_HEALING_POWER else NURSE_HEALING_POWER) := by
    split <;> norm_num [DOCTOR_HEALING_POWER, NURSE_HEALING_POWER]
  have h2 : (0:ℚ) ≤ (if cooperative then
      (if agent = Agent.doctor then DOCTOR_HEALING_POWER else NURSE_HEALING_POWER) * COOPERATIVE_BONUS
    else (if agent = Agent.doctor then DOCTOR_HEALING_POWER else NURSE_HEALING_POWER)) := by
    split
    · exact mul_nonneg h1 (by norm_num [COOPERATIVE_BONUS])
    · exact h1
  exact mul_nonneg (mul_nonneg h2 (le_of_lt (roomEffectiveness_pos room)))
    (div_nonneg hd (le_of_lt (roomTreatmentTime_pos room)))

theorem penalizePatient_inv (dt : ℚ) (hdt : 0 ≤ dt) (p : Patient) (hp : PatientInv p) :
    PatientInv (penalizePatient dt p) := by
  rcases hp with ⟨h0, h100, hstep⟩
  unfold penalizePatient
  split
  · refine ⟨le_max_left _ _, ?_, hstep⟩
    have hpen : waitingPenalty p.ptype * dt ≤ 0 :=
      mul_nonpos_of_nonpos_of_nonneg (waitingPenalty_nonpos p.ptype) hdt
    have : p.health + waitingPenalty p.ptype * dt ≤ 100 := by linarith
    exact max_le (by norm_num) this
  · exact ⟨h0, h100, hstep⟩

theorem next_room_step_lt (p : Patient) (room : Room) (h : p.next_room = some room) :
    p.current_step < p.pathway.length := by
  unfold Patient.next_room at h
  by_cases hc : p.is_complete = true
  · simp [hc] at h
  · have : ¬ p.pathway.length ≤ p.current_step := by
      intro hle
      exact hc (by simp [Patient.is_complete, hle])
    omega

theorem treatPatientP_inv (p : Patient) (agent : Agent) (duration : ℚ) (hd : 0 ≤ duration)
    (cooperative : Bool) (hp : PatientInv p) :
    PatientInv (treatPatientP p agent duration cooperative).1 := by
  rcases hp with ⟨h0, h100, hstep⟩
  unfold treatPatientP
  cases hnr : p.next_room with
  | none => exact ⟨h0, h100, hstep⟩
  | some room =>
    have hheal := treatHealing_nonneg agent room duration hd cooperative
    have hlt := next_room_step_lt p room hnr
    refine ⟨le_min (by norm_num) (by linarith), min_le_left _ _, by simpa using hlt⟩

theorem executeAgentAction_inv (dist : Room → Room → ℚ) (st : GameState) (agent : Agent)
    (action : SimAction) (m : Metrics) (hst : StateInv st) :
    StateInv (executeAgentAction dist st agent action m).1 := by
  intro q hq
  cases action with
  | WAIT =>
    apply hst
    simp only [executeAgentAction] at hq
    split at hq <;> exact hq
  | TREAT_PATIENT k =>
    cases hget : st.patients.get? (k - 1) with
    | none =>
      simp only [executeAgentAction, hget] at hq
      exact hst q hq
    | some p =>
      cases hnr : p.next_room with
      | none =>
        simp only [executeAgentAction, hget, hnr] at hq
        exact hst q hq
      | some room =>
        have hpmem : p ∈ st.patients := List.get?_mem hget
        have hpinv : PatientInv p := hst p hpmem
        have hp1 : PatientInv { p with being_treated_by := p.being_treated_by ++ [agent] } :=
          ⟨hpinv.1, hpinv.2.1, hpinv.2.2⟩
        have ht := treatPatientP_inv { p with being_treated_by := p.being_treated_by ++ [agent] }
          agent (roomTreatmentTime room 10) (le_of_lt (roomTreatmentTime_pos room))
          (decide (¬ p.being_treated_by = [])) hp1
        simp only [executeAgentAction, hget, hnr, apply_ite GameState.patients,
          ite_self] at hq
        rcases List.mem_or_eq_of_mem_set hq with hmem | rfl
        · exact hst q hmem
        · exact ⟨ht.1, ht.2.1, ht.2.2⟩

theorem apply_waiting_penalties_inv (st : GameState) (dt : ℚ) (hdt : 0 ≤ dt)
    (hst : StateInv st) : StateInv (apply_waiting_penalties st dt).1 := by
  intro q hq
  simp only [apply_waiting_penalties] at hq
  rcases List.mem_map.mp hq with ⟨p, hp, rfl⟩
  exact penalizePatient_inv dt hdt p (hst p hp)

theorem removeDead_inv (st : GameState) (m : Metrics) (hst : StateInv st) :
    StateInv (removeDead st m).1 := by
  intro q hq
  simp only [removeDead] at hq
  exact hst q (List.mem_of_mem_filter hq)

theorem removeCompleted_inv (st : GameState) (m : Metrics) (hst : StateInv st) :
    StateInv (removeCompleted st m).1 := by
  intro q hq
  simp only [removeCompleted] at hq
  exact hst q (List.mem_of_mem_filter hq)

theorem agentStep_inv (dist : Room → Room → ℚ) (agent : Agent) (acts : List SimAction)
    (idx : ℕ) (stm : GameState × Metrics) (hst : StateInv stm.1) :
    StateInv (agentStep dist agent acts idx stm).1.1 := by
  by_cases hb : (if agent = Agent.nurse then stm.1.nurse_busy_until
      else stm.1.doctor_busy_until) ≤ stm.1.current_time ∧ idx < acts.length
  · simp only [agentStep, if_pos hb]
    exact executeAgentAction_inv _ _ _ _ _ hst
  · simp only [agentStep, if_neg hb]
    exact hst

theorem simBody_inv (dist : Room → Room → ℚ) (na da : List SimAction) (s : SimLoop)
    (hst : StateInv s.st) : StateInv (simBody dist na da s).st := by
  have h1 := apply_waiting_penalties_inv s.st 1 (by norm_num) hst
  have h2 := removeDead_inv (apply_waiting_penalties s.st 1).1
    { s.m with total_penalty := s.m.total_penalty + |(apply_waiting_penalties s.st 1).2| } h1
  have h3 := agentStep_inv dist Agent.nurse na s.ni _ h2
  have h4 := agentStep_inv dist Agent.doctor da s.di _ h3
  have h5 := removeCompleted_inv _
    (agentStep dist Agent.doctor da s.di
      (agentStep dist Agent.nurse na s.ni
        (removeDead (apply_waiting_penalties s.st 1).1
          { s.m with total_penalty := s.m.total_penalty +
              |(apply_waiting_penalties s.st 1).2| })).1).1.2 h4
  exact fun q hq => h5 q hq

theorem simLoop_inv (dist : Room → Room → ℚ) (na da : List SimAction) (T : ℚ) (fuel : ℕ)
    (s : SimLoop) (hst : StateInv s.st) :
    StateInv (simLoop dist na da T fuel s).st := by
  induction fuel generalizing s with
  | zero => exact hst
  | succ n ih =>
    unfold simLoop
    split
    · exact ih _ (simBody_inv dist na da s hst)
    · exact hst

theorem simulate_inv (dist : Room → Room → ℚ) (st : GameState) (na da : List SimAction)
    (T : ℚ) (hst : StateInv st) :
    StateInv (simulate_action_sequence dist st na da T).1 := by
  unfold simulate_action_sequence
  exact simLoop_inv dist na da T _ _ (by rw [GameState.clone_eq_self]; exact hst)

theorem spawn_patient_inv (A : Analyzer) (t : PType) :
    PatientInv (spawn_patient A t).2 ∧
    (AnalyzerInv A → AnalyzerInv (spawn_patient A t).1) := by
  constructor
  · refine ⟨?_, ?_, ?_⟩ <;> cases t <;> norm_num [spawn_patient, initialHealth, pathways]
  · intro hA st hst
    simp only [spawn_patient, Option.some.injEq] at hst
    intro q hq
    rw [← hst] at hq
    rcases List.mem_append.mp hq with hq | hq
    · cases hcs : A.current_state with
      | none =>
        rw [hcs] at hq
        simp at hq
      | some st0 =>
        rw [hcs] at hq
        exact hA st0 hcs q hq
    · rcases List.mem_singleton.mp hq with rfl
      refine ⟨?_, ?_, ?_⟩ <;> cases t <;> norm_num [initialHealth, pathways]

theorem stepFirst_inv (pid : ℕ) (ps : List Patient) (hps : ∀ p ∈ ps, PatientInv p) :
    ∀ q ∈ (stepFirst pid ps).1, PatientInv q := by
  induction ps with
  | nil => intro q hq; simp [stepFirst] at hq
  | cons p rest ih =>
    intro q hq
    unfold stepFirst at hq
    split at hq
    · rcases List.mem_cons.mp hq with rfl | hq'
      · have hp := hps p (List.mem_cons_self p rest)
        split
        · exact hp
        · rename_i hnc
          refine ⟨hp.1, hp.2.1, ?_⟩
          have : ¬ p.pathway.length ≤ p.current_step := by
            intro hle
            exact hnc (by simp [Patient.is_complete, hle])
          simp only
          omega
      · exact hps q (List.mem_cons_of_mem p hq')
    · rcases List.mem_cons.mp hq with rfl | hq'
      · exact hps q (List.mem_cons_self q rest)
      · exact ih (fun r hr => hps r (List.mem_cons_of_mem p hr)) q hq'

theorem step_patient_inv (A : Analyzer) (pid : ℕ) (hA : AnalyzerInv A) :
    AnalyzerInv (step_patient A pid).1 := by
  intro st hst
  cases hcs : A.current_state with
  | none =>
    simp [step_patient, hcs] at hst
  | some st0 =>
    simp only [step_patient, hcs, Option.some.injEq] at hst
    rw [← hst]
    exact stepFirst_inv pid st0.patients (hA st0 hcs)

theorem patientInv_complete_iff (p : Patient) (hp : PatientInv p) :
    p.is_complete = true ↔ p.current_step = p.pathway.length := by
  have hle := hp.2.2
  simp only [Patient.is_complete, decide_eq_true_eq]
  omega

/-- C8: along every state built by the spawn operation, mutated by the
simulation's waiting-penalty and treatment steps (and whole simulation
runs), and by the step-complete operation, every patient keeps
0 ≤ health ≤ 100 and 0 ≤ current_step ≤ len(pathway), and is complete
exactly when current_step equals the pathway length. -/
theorem C8_patient_invariants (dist : Room → Room → ℚ) :
    (∀ (A : Analyzer) (t : PType), PatientInv (spawn_patient A t).2 ∧
      (AnalyzerInv A → AnalyzerInv (spawn_patient A t).1)) ∧
    (∀ (st : GameState) (dt : ℚ), 0 ≤ dt → StateInv st →
      StateInv (apply_waiting_penalties st dt).1) ∧
    (∀ (p : Patient) (agent : Agent) (duration : ℚ), 0 ≤ duration → ∀ cooperative : Bool,
      PatientInv p → PatientInv (treatPatientP p agent duration cooperative).1) ∧
    (∀ (st : GameState) (agent : Agent) (action : SimAction) (m : Metrics), StateInv st →
      StateInv (executeAgentAction dist st agent action m).1) ∧
    (∀ (st : GameState) (na da : List SimAction) (T : ℚ), StateInv st →
      StateInv (simulate_action_sequence dist st na da T).1) ∧
    (∀ (A : Analyzer) (pid : ℕ), AnalyzerInv A → AnalyzerInv (step_patient A pid).1) ∧
    (∀ p : Patient, PatientInv p →
      (p.is_complete = true ↔ p.current_step = p.pathway.length)) := by
  refine ⟨spawn_patient_inv, apply_waiting_penalties_inv, ?_, ?_, ?_, step_patient_inv,
    patientInv_complete_iff⟩
  · exact fun p agent duration hd cooperative hp => treatPatientP_inv p agent duration hd cooperative hp
  · exact fun st agent action m hst => executeAgentAction_inv dist st agent action m hst
  · exact fun st na da T hst => simulate_inv dist st na da T hst

/-- Witness for C8: the spawned two-patient roster satisfies the
invariant, and so does the state a full simulation run leaves behind. -/
theorem C8_witness :
    StateInv stW4 ∧
    StateInv (simulate_action_sequence (fun _ _ => 0) stW4
      [SimAction.TREAT_PATIENT 1, SimAction.WAIT] [SimAction.TREAT_PATIENT 2] 100).1 := by
  have hst : StateInv stW4 := by
    intro p hp
    rcases List.mem_cons.mp hp with rfl | hp'
    · refine ⟨?_, ?_, ?_⟩ <;> norm_num [pMinorW, pathways]
    · rcases List.mem_singleton.mp hp' with rfl
      refine ⟨?_, ?_, ?_⟩ <;> norm_num [pCritW, pathways]
  exact ⟨hst, (C8_patient_invariants (fun _ _ => 0)).2.2.2.2.1 stW4
    [SimAction.TREAT_PATIENT 1, SimAction.WAIT] [SimAction.TREAT_PATIENT 2] 100 hst⟩

/-! ## Claim C10: TREAT dispatch semantics -/

theorem next_room_of_not_complete (p : Patient) (h : p.is_complete = false) :
    ∃ room, p.next_room = some room := by
  have hlt : p.current_step < p.pathway.length := by
    simp only [Patient.is_complete, decide_eq_false_iff_not, not_le] at h
    exact h
  exact ⟨p.pathway.get ⟨p.current_step, hlt⟩, by
    simp [Patient.next_room, h, List.get?_eq_get hlt]⟩

theorem exec_treat_dispatch (dist : Room → Room → ℚ) (st : GameState) (agent : Agent)
    (m : Metrics) (k : ℕ) (hk : 1 ≤ k) (p : Patient)
    (hget : st.patients.get? (k - 1) = some p) (hnc : p.is_complete = false) :
    (executeAgentAction dist st agent (SimAction.TREAT_PATIENT k) m).1.patients.length =
      st.patients.length ∧
    (∀ j, j ≠ k - 1 →
      ((executeAgentAction dist st agent (SimAction.TREAT_PATIENT k) m).1.patients)[j]? =
        st.patients[j]?) ∧
    (∃ q : Patient,
      ((executeAgentAction dist st agent (SimAction.TREAT_PATIENT k) m).1.patients)[k - 1]? =
        some q ∧ q.id = p.id ∧ q.current_step = p.current_step + 1) := by
  rcases next_room_of_not_complete p hnc with ⟨room, hnr⟩
  have hklen : k - 1 < st.patients.length := by
    by_contra hle
    rw [List.get?_eq_none.mpr (by omega)] at hget
    cases hget
  have hnr1 : ({ p with being_treated_by := p.being_treated_by ++ [agent] } : Patient).next_room
      = some room := hnr
  refine ⟨?_, ?_, ?_⟩ <;>
    simp only [executeAgentAction, hget, hnr, apply_ite GameState.patients, ite_self]
  · exact List.length_set st.patients _ _
  · intro j hj
    exact List.getElem?_set_ne (Ne.symm hj)
  · refine ⟨_, List.getElem?_set_eq_of_lt _ hklen, ?_, ?_⟩ <;>
      simp [treatPatientP, hnr1]

theorem exec_treat_noop (dist : Room → Room → ℚ) (st : GameState) (agent : Agent)
    (m : Metrics) (k : ℕ) (hk : 1 ≤ k) :
    (st.patients.length ≤ k - 1 →
      executeAgentAction dist st agent (SimAction.TREAT_PATIENT k) m = (st, m, 0)) ∧
    (∀ p, st.patients.get? (k - 1) = some p → p.is_complete = true →
      executeAgentAction dist st agent (SimAction.TREAT_PATIENT k) m = (st, m, 0)) := by
  constructor
  · intro hlen
    have hg : st.patients.get? (k - 1) = none := List.get?_eq_none.mpr hlen
    simp only [executeAgentAction, hg]
  · intro p hget hc
    have hnr : p.next_room = none := by simp [Patient.next_room, hc]
    simp only [executeAgentAction, hget, hnr]

theorem criticalFirstSeqs_emission (ps : List Patient) (a : SimAction)
    (ha : a ∈ (criticalFirstSeqs ps).1 ∨ a ∈ (criticalFirstSeqs ps).2) :
    a = SimAction.WAIT ∨ ∃ p ∈ ps, a = SimAction.TREAT_PATIENT p.id := by
  induction ps with
  | nil => simp [criticalFirstSeqs] at ha
  | cons p rest ih =>
    unfold criticalFirstSeqs at ha
    split at ha <;>
      simp only [List.mem_append, List.mem_replicate] at ha <;>
      aesop

theorem severitySeqs_emission (ps : List Patient) (a : SimAction)
    (ha : a ∈ (severitySeqs ps).1 ∨ a ∈ (severitySeqs ps).2) :
    a = SimAction.WAIT ∨ ∃ p ∈ ps, a = SimAction.TREAT_PATIENT p.id := by
  induction ps with
  | nil => simp [severitySeqs] at ha
  | cons p rest ih =>
    unfold severitySeqs at ha
    simp only [List.mem_append, List.mem_replicate] at ha
    aesop

theorem splitByTypeSeqs_emission (ps : List Patient) (a : SimAction)
    (ha : a ∈ (splitByTypeSeqs ps).1 ∨ a ∈ (splitByTypeSeqs ps).2) :
    a = SimAction.WAIT ∨ ∃ p ∈ ps, a = SimAction.TREAT_PATIENT p.id := by
  induction ps with
  | nil => simp [splitByTypeSeqs] at ha
  | cons p rest ih =>
    unfold splitByTypeSeqs at ha
    split at ha <;>
      simp only [List.mem_append, List.mem_replicate] at ha <;>
      aesop

theorem fifoSeqs_emission (ps : List Patient) (a : SimAction)
    (ha : a ∈ (fifoSeqs ps).1 ∨ a ∈ (fifoSeqs ps).2) :
    a = SimAction.WAIT ∨ ∃ p ∈ ps, a = SimAction.TREAT_PATIENT p.id := by
  induction ps with
  | nil => simp [fifoSeqs] at ha
  | cons p rest ih =>
    unfold fifoSeqs at ha
    simp only [List.mem_append, List.mem_replicate] at ha
    aesop

theorem distanceSeqs_emission (i : ℕ) (ps : List Patient) (a : SimAction)
    (ha : a ∈ (distanceSeqs i ps).1 ∨ a ∈ (distanceSeqs i ps).2) :
    a = SimAction.WAIT ∨ ∃ p ∈ ps, a = SimAction.TREAT_PATIENT p.id := by
  induction ps generalizing i with
  | nil => simp [distanceSeqs] at ha
  | cons p rest ih =>
    unfold distanceSeqs at ha
    have ih1 := ih (i + 1)
    split at ha <;>
      simp only [List.mem_append, List.mem_replicate] at ha <;>
      aesop

theorem roleBasedSeqs_emission (ps : List Patient) (a : SimAction)
    (ha : a ∈ (roleBasedSeqs ps).1 ∨ a ∈ (roleBasedSeqs ps).2) :
    a = SimAction.WAIT ∨ ∃ p ∈ ps, a = SimAction.TREAT_PATIENT p.id := by
  induction ps with
  | nil => simp [roleBasedSeqs] at ha
  | cons p rest ih =>
    unfold roleBasedSeqs at ha
    simp only [List.mem_append, List.mem_replicate, List.mem_cons] at ha
    aesop

theorem padWait_emission (na da : List SimAction) (a : SimAction)
    (ha : a ∈ (padWait na da).1 ∨ a ∈ (padWait na da).2) :
    (a ∈ na ∨ a ∈ da) ∨ a = SimAction.WAIT := by
  rcases ha with ha | ha <;>
    rcases List.mem_append.mp ha with hb | hb
  · exact Or.inl (Or.inl hb)
  · exact Or.inr (List.eq_of_mem_replicate hb)
  · exact Or.inl (Or.inr hb)
  · exact Or.inr (List.eq_of_mem_replicate hb)

theorem generate_emission (state : GameState) (strategy : Strategy) (a : SimAction)
    (ha : a ∈ (generate_action_sequences state strategy).1 ∨
          a ∈ (generate_action_sequences state strategy).2) :
    a = SimAction.WAIT ∨ ∃ p ∈ state.patients, a = SimAction.TREAT_PATIENT p.id := by
  have hsortmem : ∀ q : Patient, q ∈ sortedByUrgencyDesc state.patients →
      q ∈ state.patients := by
    intro q hq
    exact (List.mergeSort_perm state.patients _).mem_iff.mp hq
  cases strategy
  case PARALLEL_CRITICAL =>
    rcases criticalFirstSeqs_emission _ a ha with h | ⟨q, hq, rfl⟩
    · exact Or.inl h
    · exact Or.inr ⟨q, hsortmem q hq, rfl⟩
  case SEQUENTIAL_SEVERITY =>
    rcases severitySeqs_emission _ a ha with h | ⟨q, hq, rfl⟩
    · exact Or.inl h
    · exact Or.inr ⟨q, hsortmem q hq, rfl⟩
  case DOCTOR_CRITICAL_NURSE_OTHERS =>
    rcases padWait_emission _ _ a ha with hb | rfl
    · exact splitByTypeSeqs_emission _ a hb
    · exact Or.inl rfl
  case COOPERATIVE_ALL =>
    exact fifoSeqs_emission _ a ha
  case NEAREST_FIRST =>
    rcases padWait_emission _ _ a ha with hb | rfl
    · exact distanceSeqs_emission 0 _ a hb
    · exact Or.inl rfl
  case NURSE_TRIAGE_DOCTOR_TREAT =>
    rcases padWait_emission _ _ a ha with hb | rfl
    · exact roleBasedSeqs_emission _ a hb
    · exact Or.inl rfl

/-- C10: TREAT_PATIENT_k dispatches by roster position, silently no-ops
on invalid or complete targets, the catalog emits k equal to patient ids,
and under the id = position + 1 alignment the action reaches the intended
patient. -/
theorem C10_dispatch_by_position (dist : Room → Room → ℚ) :
    (∀ (st : GameState) (agent : Agent) (m : Metrics) (k : ℕ), 1 ≤ k → ∀ p : Patient,
      st.patients.get? (k - 1) = some p → p.is_complete = false →
      (executeAgentAction dist st agent (SimAction.TREAT_PATIENT k) m).1.patients.length =
        st.patients.length ∧
      (∀ j, j ≠ k - 1 →
        ((executeAgentAction dist st agent (SimAction.TREAT_PATIENT k) m).1.patients)[j]? =
          st.patients[j]?) ∧
      (∃ q : Patient,
        ((executeAgentAction dist st agent (SimAction.TREAT_PATIENT k) m).1.patients)[k - 1]? =
          some q ∧ q.id = p.id ∧ q.current_step = p.current_step + 1)) ∧
    (∀ (st : GameState) (agent : Agent) (m : Metrics) (k : ℕ), 1 ≤ k →
      (st.patients.length ≤ k - 1 →
        executeAgentAction dist st agent (SimAction.TREAT_PATIENT k) m = (st, m, 0)) ∧
      (∀ p, st.patients.get? (k - 1) = some p → p.is_complete = true →
        executeAgentAction dist st agent (SimAction.TREAT_PATIENT k) m = (st, m, 0))) ∧
    (∀ (state : GameState) (strategy : Strategy) (a : SimAction),
      (a ∈ (generate_action_sequences state strategy).1 ∨
        a ∈ (generate_action_sequences state strategy).2) →
      a = SimAction.WAIT ∨ ∃ p ∈ state.patients, a = SimAction.TREAT_PATIENT p.id) ∧
    (∀ (st : GameState) (agent : Agent) (m : Metrics),
      (∀ i (h : i < st.patients.length), (st.patients.get ⟨i, h⟩).id = i + 1) →
      ∀ i (h : i < st.patients.length), (st.patients.get ⟨i, h⟩).is_complete = false →
      ∃ q : Patient,
        ((executeAgentAction dist st agent
            (SimAction.TREAT_PATIENT (st.patients.get ⟨i, h⟩).id) m).1.patients)[i]? =
          some q ∧ q.current_step = (st.patients.get ⟨i, h⟩).current_step + 1) := by
  refine ⟨fun st agent m k hk p hget hnc => exec_treat_dispatch dist st agent m k hk p hget hnc,
    fun st agent m k hk => exec_treat_noop dist st agent m k hk,
    fun state strategy a ha => generate_emission state strategy a ha,
    ?_⟩
  intro st agent m hids i h hnc
  have hid := hids i h
  have hget : st.patients.get? ((st.patients.get ⟨i, h⟩).id - 1) =
      some (st.patients.get ⟨i, h⟩) := by
    rw [hid]
    simpa using List.get?_eq_get h
  have hd := exec_treat_dispatch dist st agent m (st.patients.get ⟨i, h⟩).id
    (by omega) _ hget hnc
  rcases hd.2.2 with ⟨q, hq1, _, hq3⟩
  refine ⟨q, ?_, hq3⟩
  have hidx : (st.patients.get ⟨i, h⟩).id - 1 = i := by omega
  rw [hidx] at hq1
  exact hq1

/-- Witness for C10: the no-op branch applied to the two-patient roster
with the out-of-range action TREAT_PATIENT_5, and the dispatch branch
applied at position 0. -/
theorem C10_witness :
    ((1 : ℕ) ≤ 5) ∧ stW4.patients.length ≤ 5 - 1 ∧
    executeAgentAction (fun _ _ => 0) stW4 Agent.nurse (SimAction.TREAT_PATIENT 5) {} =
      (stW4, {}, 0) := by
  have h5 : (1 : ℕ) ≤ 5 := by norm_num
  have hlen : stW4.patients.length ≤ 5 - 1 := by
    simp [stW4]
  exact ⟨h5, hlen,
    ((C10_dispatch_by_position (fun _ _ => 0)).2.1 stW4 Agent.nurse {} 5 h5).1 hlen⟩

/-! ## Scheduling orchestrator (DynamicRegretAnalyzer.analyze_and_plan) -/

/-- Python max(iterable, key=...) over an association list: the running
best is replaced only when a later entry is strictly greater, so the
first entry attaining the maximum wins. -/
def pyMaxPair : List (Strategy × ℚ) → Option (Strategy × ℚ)
  | [] => none
  | x :: xs => some (xs.foldl (fun acc y => if acc.2 < y.2 then y else acc) x)

/-- The abstracted stochastic inputs of one CFR learning round: the
per-strategy values produced by evaluate_all_strategies (the average of
five noisy simulations plus Gaussian exploration noise, whose support is
all of the reals, so the value map ranges over every rational function)
and the strategy sampled by select_strategy. -/
structure RoundInput : Type where
  values : Strategy → ℚ
  selected : Strategy

/-- One iteration of the learning loop of analyze_and_plan: read the
current policy, select, update regrets, and record the round with the
pre-update policy, exactly in the order of the source. -/
def planRound (sq : ℚ → ℚ) (L : LearnerState) (r : RoundInput) : LearnerState :=
  let probs := get_strategy_probabilities L.regret_sum catalog
  let L1 := update_regrets sq catalog r.values L
  record_iteration catalog r.values r.selected probs (r.values r.selected) L1

def NUM_CFR_ITERATIONS : ℕ := 20

/-- Result bundle of analyze_and_plan; strategy none models the IDLE
assignment of the empty-roster branch. -/
structure PlanResult : Type where
  strategy : Option Strategy
  nurse_commands : List UCmd
  doctor_commands : List UCmd
  expected_reward : ℚ

/-- DynamicRegretAnalyzer.analyze_and_plan.  The rounds list supplies the
abstracted stochastic inputs of the learning rounds (the source always
runs NUM_CFR_ITERATIONS of them; theorems constrain rounds.length
accordingly).  After the loop the source takes the argmax of the average
strategy dict, falling back to max over the last round's strategy_values
when the average is empty; the final `none` arm of the inner match is
unreachable because the catalog is non-empty. -/
def analyze_and_plan (sq : ℚ → ℚ) (cs : Option GameState) (L : LearnerState)
    (rounds : List RoundInput) : PlanResult × LearnerState :=
  match cs with
  | none =>
    ({ strategy := none, nurse_commands := [], doctor_commands := [],
       expected_reward := 0 }, L)
  | some st =>
    if st.patients = [] then
      ({ strategy := none, nurse_commands := [], doctor_commands := [],
         expected_reward := 0 }, L)
    else
      let L2 := rounds.foldl (planRound sq) L
      let lastValues : Strategy → ℚ := (rounds.getLast?.map RoundInput.values).getD (fun _ => 0)
      let avg := get_average_strategy L2
      let best : Strategy :=
        match pyMaxPair avg with
        | some bv => bv.1
        | none =>
          match pyMaxPair (catalog.map fun s => (s, lastValues s)) with
          | some bv => bv.1
          | none => Strategy.PARALLEL_CRITICAL
      let cmds := generateUnityCommands best st
      ({ strategy := some best, nurse_commands := cmds.1, doctor_commands := cmds.2,
         expected_reward := lastValues best }, L2)

/-- C9: on an absent scenario or an empty roster, plan() returns the IDLE
bundle with empty nurse and doctor command lists and expected reward 0,
and the learner state is returned untouched (regret sums, probability
sums, iteration counter and histories unchanged). -/
theorem C9_idle_no_mutation (sq : ℚ → ℚ) (cs : Option GameState) (L : LearnerState)
    (rounds : List RoundInput)
    (h : cs = none ∨ ∃ st, cs = some st ∧ st.patients = []) :
    analyze_and_plan sq cs L rounds =
      ({ strategy := none, nurse_commands := [], doctor_commands := [],
         expected_reward := 0 }, L) := by
  rcases h with rfl | ⟨st, rfl, hst⟩
  · rfl
  · simp [analyze_and_plan, hst]

/-- Witness for C9: the theorem applied to the empty scenario state and
the fresh learner. -/
theorem C9_witness :
    (analyze_and_plan (fun q => q) (some ({} : GameState)) LearnerState.start []).2 =
      LearnerState.start ∧
    (analyze_and_plan (fun q => q) (some ({} : GameState)) LearnerState.start []).1.strategy
      = none := by
  have h := C9_idle_no_mutation (fun q => q) (some ({} : GameState)) LearnerState.start []
    (Or.inr ⟨{}, rfl, rfl⟩)
  rw [h]
  exact ⟨rfl, rfl⟩

/-! ## Claim C1: final strategy selection -/

theorem catalog_ne_nil : catalog ≠ [] := by decide

theorem mem_catalog (s : Strategy) : s ∈ catalog := by
  cases s <;> decide

theorem pyFold_spec (l : List (Strategy × ℚ)) (a : Strategy × ℚ) :
    a.2 ≤ (l.foldl (fun acc y => if acc.2 < y.2 then y else acc) a).2 ∧
    (∀ y ∈ l, y.2 ≤ (l.foldl (fun acc y => if acc.2 < y.2 then y else acc) a).2) ∧
    (l.foldl (fun acc y => if acc.2 < y.2 then y else acc) a = a ∨
      ∃ k, ∃ hk : k < l.length,
        l.foldl (fun acc y => if acc.2 < y.2 then y else acc) a = l.get ⟨k, hk⟩ ∧
        a.2 < (l.foldl (fun acc y => if acc.2 < y.2 then y else acc) a).2 ∧
        ∀ j (hj : j < k), (l.get ⟨j, lt_trans hj hk⟩).2 <
          (l.foldl (fun acc y => if acc.2 < y.2 then y else acc) a).2) := by
  induction l generalizing a with
  | nil => exact ⟨le_refl _, by simp, Or.inl rfl⟩
  | cons y ys ih =>
    by_cases h : a.2 < y.2
    · have hstep : (y :: ys).foldl (fun acc y => if acc.2 < y.2 then y else acc) a =
          ys.foldl (fun acc y => if acc.2 < y.2 then y else acc) y := by
        simp [List.foldl_cons, if_pos h]
      rcases ih y with ⟨ih1, ih2, ih3⟩
      rw [hstep]
      refine ⟨le_trans (le_of_lt h) ih1, ?_, ?_⟩
      · intro z hz
        rcases List.mem_cons.mp hz with rfl | hz'
        · exact ih1
        · exact ih2 z hz'
      · rcases ih3 with heq | ⟨k, hk, hg, hlt, hpre⟩
        · refine Or.inr ⟨0, by simp, ?_, ?_, ?_⟩
          · simpa using heq
          · rw [heq]; exact h
          · intro j hj; omega
        · refine Or.inr ⟨k + 1, by simpa using hk, ?_, lt_trans h hlt, ?_⟩
          · simpa using hg
          · intro j hj
            cases j with
            | zero => simpa using hlt
            | succ j' =>
              have hj' : j' < k := by omega
              simpa using hpre j' hj'
    · have hstep : (y :: ys).foldl (fun acc y => if acc.2 < y.2 then y else acc) a =
          ys.foldl (fun acc y => if acc.2 < y.2 then y else acc) a := by
        simp [List.foldl_cons, if_neg h]
      rcases ih a with ⟨ih1, ih2, ih3⟩
      rw [hstep]
      have hya : y.2 ≤ a.2 := le_of_not_lt h
      refine ⟨ih1, ?_, ?_⟩
      · intro z hz
        rcases List.mem_cons.mp hz with rfl | hz'
        · exact le_trans hya ih1
        · exact ih2 z hz'
      · rcases ih3 with heq | ⟨k, hk, hg, hlt, hpre⟩
        · exact Or.inl heq
        · refine Or.inr ⟨k + 1, by simpa using hk, by simpa using hg, hlt, ?_⟩
          intro j hj
          cases j with
          | zero => simpa using lt_of_le_of_lt hya hlt
          | succ j' =>
            have hj' : j' < k := by omega
            simpa using hpre j' hj'

theorem pyMaxPair_spec (l : List (Strategy × ℚ)) (hne : l ≠ []) :
    ∃ r, pyMaxPair l = some r ∧ ∃ k, ∃ hk : k < l.length, r = l.get ⟨k, hk⟩ ∧
      (∀ y ∈ l, y.2 ≤ r.2) ∧ ∀ j (hj : j < k), (l.get ⟨j, lt_trans hj hk⟩).2 < r.2 := by
  match l, hne with
  | x :: xs, _ =>
    rcases pyFold_spec xs x with ⟨h1, h2, h3⟩
    refine ⟨_, rfl, ?_⟩
    rcases h3 with heq | ⟨k, hk, hg, hlt, hpre⟩
    · refine ⟨0, by simp, by simpa using heq, ?_, by intro j hj; omega⟩
      intro y hy
      rcases List.mem_cons.mp hy with rfl | hy'
      · rw [heq]
      · exact h2 y hy'
    · refine ⟨k + 1, by simpa using hk, by simpa using hg, ?_, ?_⟩
      · intro y hy
        rcases List.mem_cons.mp hy with rfl | hy'
        · exact h1
        · exact h2 y hy'
      · intro j hj
        cases j with
        | zero => simpa using hlt
        | succ j' =>
          have hj' : j' < k := by omega
          simpa using hpre j' hj'

theorem update_regrets_strategy_sum (sq : ℚ → ℚ) (values : Strategy → ℚ)
    (L : LearnerState) :
    (update_regrets sq catalog values L).strategy_sum = L.strategy_sum := by
  simp [update_regrets, catalog_ne_nil]

theorem planRound_strategy_sum (sq : ℚ → ℚ) (L : LearnerState) (r : RoundInput)
    (s : Strategy) :
    (planRound sq L r).strategy_sum s =
      L.strategy_sum s + get_strategy_probabilities L.regret_sum catalog s := by
  simp [planRound, record_iteration, update_regrets_strategy_sum, mem_catalog]

theorem planRound_regret_sum (sq : ℚ → ℚ) (L : LearnerState) (r : RoundInput)
    (s : Strategy) :
    (planRound sq L r).regret_sum s =
      L.regret_sum s + (r.values s -
        (catalog.map fun t =>
          get_strategy_probabilities L.regret_sum catalog t * r.values t).sum) := by
  simp [planRound, record_iteration, update_regrets, catalog_ne_nil, mem_catalog]

theorem sum_map_add {α : Type} (l : List α) (f g : α → ℚ) :
    (l.map fun a => f a + g a).sum = (l.map f).sum + (l.map g).sum := by
  induction l with
  | nil => simp
  | cons x xs ih => simp [ih]; ring

theorem planRound_total (sq : ℚ → ℚ) (L : LearnerState) (r : RoundInput) :
    (catalog.map (planRound sq L r).strategy_sum).sum =
      (catalog.map L.strategy_sum).sum + 1 := by
  have h1 : catalog.map (planRound sq L r).strategy_sum =
      catalog.map fun s => L.strategy_sum s +
        get_strategy_probabilities L.regret_sum catalog s := by
    apply List.map_congr_left
    intro s _
    exact planRound_strategy_sum sq L r s
  rw [h1, sum_map_add, probs_sum_one L.regret_sum catalog catalog_ne_nil]

theorem planRound_ssum_nonneg (sq : ℚ → ℚ) (L : LearnerState) (r : RoundInput)
    (h : ∀ s, 0 ≤ L.strategy_sum s) :
    ∀ s, 0 ≤ (planRound sq L r).strategy_sum s := by
  intro s
  rw [planRound_strategy_sum]
  exact add_nonneg (h s) (probs_nonneg _ _ _)

theorem foldl_planRound_total (sq : ℚ → ℚ) (rounds : List RoundInput) (L : LearnerState) :
    (catalog.map (rounds.foldl (planRound sq) L).strategy_sum).sum =
      (catalog.map L.strategy_sum).sum + rounds.length := by
  induction rounds generalizing L with
  | nil => simp
  | cons r rs ih =>
    rw [List.foldl_cons, ih, planRound_total, List.length_cons]
    push_cast
    ring

theorem foldl_planRound_nonneg (sq : ℚ → ℚ) (rounds : List RoundInput) (L : LearnerState)
    (h : ∀ s, 0 ≤ L.strategy_sum s) :
    ∀ s, 0 ≤ (rounds.foldl (planRound sq) L).strategy_sum s := by
  induction rounds generalizing L with
  | nil => exact h
  | cons r rs ih =>
    rw [List.foldl_cons]
    exact ih _ (planRound_ssum_nonneg sq L r h)

/-- C1 (amended): after the learning rounds of a plan() call on a
non-empty roster (with the learner's probability-sum accumulators
non-negative, as in every reachable state), the strategy in the result
bundle is one with the highest time-averaged probability in the average
policy, and a tie in that probability is broken in favour of the strategy
occurring earliest in the fixed catalog order — Python's max returns the
first maximal entry — not by latest-round value. -/
theorem C1_final_selection (sq : ℚ → ℚ) (st : GameState) (hne : ¬ st.patients = [])
    (L : LearnerState) (hnn : ∀ s, 0 ≤ L.strategy_sum s) (rounds : List RoundInput)
    (hlen : rounds.length = NUM_CFR_ITERATIONS) :
    (get_average_strategy (rounds.foldl (planRound sq) L)).map Prod.fst = catalog ∧
    ∃ k, ∃ hk : k < (get_average_strategy (rounds.foldl (planRound sq) L)).length,
      (analyze_and_plan sq (some st) L rounds).1.strategy =
        some ((get_average_strategy (rounds.foldl (planRound sq) L)).get ⟨k, hk⟩).1 ∧
      (∀ y ∈ get_average_strategy (rounds.foldl (planRound sq) L),
        y.2 ≤ ((get_average_strategy (rounds.foldl (planRound sq) L)).get ⟨k, hk⟩).2) ∧
      ∀ j (hj : j < k),
        ((get_average_strategy (rounds.foldl (planRound sq) L)).get ⟨j, lt_trans hj hk⟩).2 <
          ((get_average_strategy (rounds.foldl (planRound sq) L)).get ⟨k, hk⟩).2 := by
  have htot0 : 0 ≤ (catalog.map L.strategy_sum).sum := by
    apply List.sum_nonneg
    intro x hx
    rcases List.mem_map.mp hx with ⟨s, _, rfl⟩
    exact hnn s
  have htot : 0 < (catalog.map (rounds.foldl (planRound sq) L).strategy_sum).sum := by
    rw [foldl_planRound_total, hlen]
    have : ((NUM_CFR_ITERATIONS : ℕ) : ℚ) = 20 := by norm_num [NUM_CFR_ITERATIONS]
    rw [this]
    linarith
  have havg : get_average_strategy (rounds.foldl (planRound sq) L) =
      catalog.map (fun s => (s, (rounds.foldl (planRound sq) L).strategy_sum s /
        (catalog.map (rounds.foldl (planRound sq) L).strategy_sum).sum)) := by
    unfold get_average_strategy
    simp [htot]
  have hfst : (get_average_strategy (rounds.foldl (planRound sq) L)).map Prod.fst
      = catalog := by
    rw [havg, List.map_map]
    rfl
  have hnonnil : get_average_strategy (rounds.foldl (planRound sq) L) ≠ [] := by
    rw [havg]
    simp [catalog]
  rcases pyMaxPair_spec _ hnonnil with ⟨r, hr, k, hk, hget, hmax, hpre⟩
  have hres : (analyze_and_plan sq (some st) L rounds).1.strategy = some r.1 := by
    simp only [analyze_and_plan, if_neg hne, hr]
  refine ⟨hfst, k, hk, ?_, ?_, ?_⟩
  · rw [hres, hget]
  · intro y hy
    rw [← hget]
    exact hmax y hy
  · intro j hj
    rw [← hget]
    exact hpre j hj

/-- Rounds used to instantiate the amended C1 theorem. -/
def roundsW : List RoundInput :=
  List.replicate 20 { values := fun _ => 0, selected := Strategy.PARALLEL_CRITICAL }

/-- Witness for C1: the amended theorem applied to the two-patient roster
with twenty noise-free rounds from the fresh learner. -/
theorem C1_witness :
    (¬ stW4.patients = []) ∧ (∀ s, 0 ≤ LearnerState.start.strategy_sum s) ∧
    roundsW.length = NUM_CFR_ITERATIONS ∧
    ((get_average_strategy (roundsW.foldl (planRound (fun q => q))
      LearnerState.start)).map Prod.fst = catalog) := by
  refine ⟨by decide, fun s => le_refl 0, by simp [roundsW, NUM_CFR_ITERATIONS], ?_⟩
  exact (C1_final_selection (fun q => q) stW4 (by decide) LearnerState.start
    (fun s => le_refl 0) roundsW (by simp [roundsW, NUM_CFR_ITERATIONS])).1

/-! The C1 counterexample: one possible draw of the twenty rounds'
stochastic inputs under which the average policy ends with
PARALLEL_CRITICAL and SEQUENTIAL_SEVERITY exactly tied at the top while
SEQUENTIAL_SEVERITY has the strictly highest latest-round value, and the
code still returns PARALLEL_CRITICAL (the earlier catalog entry). -/

def sqCE : ℚ → ℚ := fun q => q

/-- Round-1 values: 3 for the first two catalog strategies, 0 elsewhere. -/
def vA : Strategy → ℚ
  | Strategy.PARALLEL_CRITICAL => 3
  | Strategy.SEQUENTIAL_SEVERITY => 3
  | _ => 0

/-- Round-20 values: 100 for SEQUENTIAL_SEVERITY, 0 elsewhere. -/
def vB : Strategy → ℚ
  | Strategy.SEQUENTIAL_SEVERITY => 100
  | _ => 0

def rA : RoundInput := { values := vA, selected := Strategy.PARALLEL_CRITICAL }
def rZ : RoundInput := { values := fun _ => 0, selected := Strategy.PARALLEL_CRITICAL }
def rB : RoundInput := { values := vB, selected := Strategy.PARALLEL_CRITICAL }

def roundsCE : List RoundInput := rA :: (List.replicate 18 rZ ++ [rB])

/-- The regret vector after round 1. -/
def R1 : Strategy → ℚ
  | Strategy.PARALLEL_CRITICAL => 2
  | Strategy.SEQUENTIAL_SEVERITY => 2
  | _ => -1

/-- The regret-matching policy at R1. -/
def P1 : Strategy → ℚ
  | Strategy.PARALLEL_CRITICAL => 1/2
  | Strategy.SEQUENTIAL_SEVERITY => 1/2
  | _ => 0

theorem probs_zero : get_strategy_probabilities (fun _ => 0) catalog = fun _ => 1/6 := by
  funext s
  have htot : ((catalog.map fun s => max 0 ((fun _ => (0:ℚ)) s)).sum : ℚ) = 0 := by
    norm_num [catalog]
  simp only [get_strategy_probabilities, htot]
  norm_num [catalog]

theorem probs_R1 : get_strategy_probabilities R1 catalog = P1 := by
  funext s
  have htot : ((catalog.map fun s => max 0 (R1 s)).sum : ℚ) = 4 := by
    norm_num [catalog, R1]
  simp only [get_strategy_probabilities, htot]
  rw [if_pos (by norm_num : (0:ℚ) < 4)]
  cases s <;> norm_num [R1, P1]

theorem regret_after_rA :
    (planRound sqCE LearnerState.start rA).regret_sum = R1 := by
  funext s
  rw [planRound_regret_sum]
  rw [show LearnerState.start.regret_sum = (fun _ => (0:ℚ)) from rfl, probs_zero]
  have hV : ((catalog.map fun t => (fun _ => (1/6:ℚ)) t * rA.values t).sum : ℚ) = 1 := by
    norm_num [catalog, rA, vA]
  rw [hV]
  cases s <;> norm_num [LearnerState.start, rA, vA, R1]

theorem ssum_after_rA (t : Strategy) :
    (planRound sqCE LearnerState.start rA).strategy_sum t = 1/6 := by
  rw [planRound_strategy_sum]
  rw [show LearnerState.start.regret_sum = (fun _ => (0:ℚ)) from rfl, probs_zero]
  norm_num [LearnerState.start]

theorem planRound_rZ (L : LearnerState) (hreg : L.regret_sum = R1) :
    (planRound sqCE L rZ).regret_sum = R1 ∧
    ∀ s, (planRound sqCE L rZ).strategy_sum s = L.strategy_sum s + P1 s := by
  constructor
  · funext s
    rw [planRound_regret_sum, hreg, probs_R1]
    have hV : ((catalog.map fun t => P1 t * rZ.values t).sum : ℚ) = 0 := by
      norm_num [catalog, rZ, P1]
    rw [hV]
    norm_num [rZ]
  · intro s
    rw [planRound_strategy_sum, hreg, probs_R1]

theorem foldl_rZ (n : ℕ) : ∀ L : LearnerState, L.regret_sum = R1 →
    ((List.replicate n rZ).foldl (planRound sqCE) L).regret_sum = R1 ∧
    ∀ s, ((List.replicate n rZ).foldl (planRound sqCE) L).strategy_sum s =
      L.strategy_sum s + n * P1 s := by
  induction n with
  | zero =>
    intro L h
    exact ⟨h, by intro s; simp⟩
  | succ m ih =>
    intro L h
    rw [List.replicate_succ, List.foldl_cons]
    rcases planRound_rZ L h with ⟨h1, h2⟩
    rcases ih _ h1 with ⟨h3, h4⟩
    refine ⟨h3, ?_⟩
    intro s
    rw [h4, h2]
    push_cast
    ring

theorem L2_ssum (s : Strategy) :
    (roundsCE.foldl (planRound sqCE) LearnerState.start).strategy_sum s =
      1/6 + 19 * P1 s := by
  rcases foldl_rZ 18 _ regret_after_rA with ⟨h19reg, h19ssum⟩
  have hshape : roundsCE.foldl (planRound sqCE) LearnerState.start =
      planRound sqCE ((List.replicate 18 rZ).foldl (planRound sqCE)
        (planRound sqCE LearnerState.start rA)) rB := by
    simp [roundsCE, List.foldl_append]
  rw [hshape, planRound_strategy_sum, h19reg, probs_R1, h19ssum, ssum_after_rA]
  ring

theorem L2_total :
    (catalog.map (roundsCE.foldl (planRound sqCE) LearnerState.start).strategy_sum).sum
      = 20 := by
  have h : catalog.map (roundsCE.foldl (planRound sqCE) LearnerState.start).strategy_sum =
      catalog.map fun s => 1/6 + 19 * P1 s :=
    List.map_congr_left fun s _ => L2_ssum s
  rw [h]
  norm_num [catalog, P1]

theorem avg_CE :
    get_average_strategy (roundsCE.foldl (planRound sqCE) LearnerState.start) =
      [(Strategy.PARALLEL_CRITICAL, 29/60), (Strategy.SEQUENTIAL_SEVERITY, 29/60),
       (Strategy.DOCTOR_CRITICAL_NURSE_OTHERS, 1/120), (Strategy.COOPERATIVE_ALL, 1/120),
       (Strategy.NEAREST_FIRST, 1/120), (Strategy.NURSE_TRIAGE_DOCTOR_TREAT, 1/120)] := by
  simp only [get_average_strategy, L2_total]
  rw [if_pos (by norm_num : (0:ℚ) < 20)]
  simp only [catalog, List.map_cons, List.map_nil, L2_ssum]
  norm_num [P1]

/-- C1 counterexample: under the concrete twenty-round draw roundsCE from
the fresh learner on a non-empty roster, the average policy ends with
PARALLEL_CRITICAL and SEQUENTIAL_SEVERITY exactly tied at the maximal
probability 29/60, the latest-round value of SEQUENTIAL_SEVERITY (100)
strictly exceeds PARALLEL_CRITICAL's (0), yet the returned strategy is
PARALLEL_CRITICAL — the tie is broken by catalog order, not by the
latest-round value as the claim states. -/
theorem C1_counterexample :
    roundsCE.length = NUM_CFR_ITERATIONS ∧
    ((Strategy.PARALLEL_CRITICAL, (29/60 : ℚ)) ∈
      get_average_strategy (roundsCE.foldl (planRound sqCE) LearnerState.start)) ∧
    ((Strategy.SEQUENTIAL_SEVERITY, (29/60 : ℚ)) ∈
      get_average_strategy (roundsCE.foldl (planRound sqCE) LearnerState.start)) ∧
    (∀ y ∈ get_average_strategy (roundsCE.foldl (planRound sqCE) LearnerState.start),
      y.2 ≤ 29/60) ∧
    ((roundsCE.getLast?.map RoundInput.values).getD (fun _ => 0))
        Strategy.SEQUENTIAL_SEVERITY = 100 ∧
    ((roundsCE.getLast?.map RoundInput.values).getD (fun _ => 0))
        Strategy.PARALLEL_CRITICAL = 0 ∧
    (analyze_and_plan sqCE (some stW4) LearnerState.start roundsCE).1.strategy =
      some Strategy.PARALLEL_CRITICAL := by
  have hlast : roundsCE.getLast? = some rB := by
    unfold roundsCE
    rw [← List.cons_append, List.getLast?_concat]
  refine ⟨by simp [roundsCE, NUM_CFR_ITERATIONS], ?_, ?_, ?_, ?_, ?_, ?_⟩
  · rw [avg_CE]
    simp
  · rw [avg_CE]
    simp
  · rw [avg_CE]
    intro y hy
    simp only [List.mem_cons, List.not_mem_nil, or_false] at hy
    rcases hy with rfl | rfl | rfl | rfl | rfl | rfl <;> norm_num
  · simp [hlast, rB, vB]
  · simp [hlast, rB, vB]
  · have hne : ¬ stW4.patients = [] := by decide
    simp only [analyze_and_plan, if_neg hne, avg_CE]
    norm_num [pyMaxPair, List.foldl]

/-! ## Claim C7: the simulator mutates only its clone (heap model)

The Python simulator mutates Patient objects in place, but only those of
the deep clone GameState.clone builds on entry.  To state that frame
property, patient objects get an explicit heap: a cell is an index into a
growing list of Patient values, a scenario state holds cell references,
clone allocates fresh cells at the end of the heap holding copies of the
referenced values, and every in-place mutation of the simulation loop is
a List.set at a referenced cell.  The theorem at the end shows that every
cell that existed before the call — in particular every patient of the
caller's state — holds exactly its old value afterwards, because the
cloned state references only the freshly allocated cells. -/

abbrev Heap := List Patient

/-- A scenario state whose patients live in the heap. -/
structure HGameState : Type where
  patientRefs : List ℕ
  nurse_pos : Room := Room.ENT
  doctor_pos : Room := Room.ENT
  nurse_busy_until : ℚ := 0
  doctor_busy_until : ℚ := 0
  current_time : ℚ := 0
  total_reward : ℚ := 0
  total_penalty : ℚ := 0
  completed_patients : ℕ := 0

/-- GameState.clone in the heap model: fresh cells are allocated at the
end of the heap with copies (Patient.clone) of the referenced patients,
and the cloned state references only those fresh cells. -/
def hclone (s : HGameState) (h : Heap) : HGameState × Heap :=
  ({ s with patientRefs := List.range' h.length s.patientRefs.length },
   h ++ s.patientRefs.map fun r => Patient.clone (h.getD r default))

/-- The per-patient loop of apply_waiting_penalties over the referenced
cells, returning the mutated heap and the accumulated penalty. -/
def hPenalize (dt : ℚ) : List ℕ → Heap → Heap × ℚ
  | [], h => (h, 0)
  | r :: rs, h =>
    let p := h.getD r default
    let pen := if p.being_treated_by = [] then waitingPenalty p.ptype * dt else 0
    let rest := hPenalize dt rs (h.set r (penalizePatient dt p))
    (rest.1, pen + rest.2)

/-- apply_waiting_penalties in the heap model. -/
def applyWaitingPenaltiesH (s : HGameState) (h : Heap) (dt : ℚ) :
    HGameState × Heap × ℚ :=
  let r := hPenalize dt s.patientRefs h
  ({ s with total_penalty := s.total_penalty + r.2 }, r.1, r.2)

/-- Dead-patient removal in the heap model: drops the references, the
cells stay (as the objects do in Python). -/
def removeDeadH (s : HGameState) (h : Heap) (m : Metrics) : HGameState × Metrics :=
  let dead := s.patientRefs.filter fun r => decide ((h.getD r default).health ≤ 0)
  ({ s with
      patientRefs := s.patientRefs.filter fun r => decide (¬ (h.getD r default).health ≤ 0),
      total_penalty := s.total_penalty - 50 * dead.length },
   { m with total_penalty := m.total_penalty + 50 * dead.length })

/-- Completed-patient removal in the heap model. -/
def removeCompletedH (s : HGameState) (h : Heap) (m : Metrics) : HGameState × Metrics :=
  let comp := s.patientRefs.filter fun r => (h.getD r default).is_complete
  ({ s with patientRefs := s.patientRefs.filter fun r => ! (h.getD r default).is_complete },
   { m with patients_completed := m.patients_completed + comp.length })

/-- _execute_agent_action in the heap model: the only heap mutation is the
in-place update of the treated patient's cell. -/
def executeAgentActionH (dist : Room → Room → ℚ) (s : HGameState) (h : Heap)
    (agent : Agent) (action : SimAction) (m : Metrics) :
    HGameState × Heap × Metrics × ℚ :=
  match action with
  | SimAction.TREAT_PATIENT k =>
    let pidx := k - 1
    match s.patientRefs.get? pidx with
    | none => (s, h, m, 0)
    | some r =>
      let p := h.getD r default
      match p.next_room with
      | none => (s, h, m, 0)
      | some room =>
        let current_pos := if agent = Agent.nurse then s.nurse_pos else s.doctor_pos
        let travel_time := dist current_pos room /
          (if agent = Agent.nurse then nurse_speed else doctor_speed)
        let treatment_time := roomTreatmentTime room 10
        let cooperative := p.being_treated_by ≠ []
        let m1 := if cooperative then
            { m with cooperation_events := m.cooperation_events + 1 } else m
        let busy_until := s.current_time + travel_time + treatment_time
        let s1 := if agent = Agent.nurse then
            { s with nurse_busy_until := busy_until, nurse_pos := room }
          else { s with doctor_busy_until := busy_until, doctor_pos := room }
        let p1 := { p with being_treated_by := p.being_treated_by ++ [agent] }
        let tr := treatPatientP p1 agent treatment_time cooperative
        let p3 := { tr.1 with being_treated_by := tr.1.being_treated_by.erase agent }
        ({ s1 with
            total_reward := s1.total_reward + tr.2.1,
            completed_patients :=
              if tr.2.2 then s1.completed_patients + 1 else s1.completed_patients },
         h.set r p3, m1, tr.2.1)
  | SimAction.WAIT =>
    let m1 := { m with idle_time := m.idle_time + 1 }
    if agent = Agent.nurse then
      ({ s with nurse_busy_until := s.current_time + 1 }, h, m1, 0)
    else
      ({ s with doctor_busy_until := s.current_time + 1 }, h, m1, 0)

/-- The per-agent step of the simulation loop in the heap model. -/
def agentStepH (dist : Room → Room → ℚ) (agent : Agent) (acts : List SimAction) (idx : ℕ)
    (shm : HGameState × Heap × Metrics) : (HGameState × Heap × Metrics) × ℕ :=
  let busy := if agent = Agent.nurse then shm.1.nurse_busy_until else shm.1.doctor_busy_until
  if busy ≤ shm.1.current_time ∧ idx < acts.length then
    let ex := executeAgentActionH dist shm.1 shm.2.1 agent (acts.getD idx SimAction.WAIT)
      shm.2.2
    ((ex.1, ex.2.1,
      { ex.2.2.1 with total_healing := ex.2.2.1.total_healing + ex.2.2.2 }), idx + 1)
  else (shm, idx)

/-- State threaded through the heap-model simulation loop. -/
structure SimLoopH : Type where
  s : HGameState
  h : Heap
  m : Metrics
  ni : ℕ
  di : ℕ

/-- One iteration of the simulation while-loop in the heap model. -/
def simBodyH (dist : Room → Room → ℚ) (na da : List SimAction) (w : SimLoopH) : SimLoopH :=
  let ap := applyWaitingPenaltiesH w.s w.h 1
  let rd := removeDeadH ap.1 ap.2.1
    { w.m with total_penalty := w.m.total_penalty + |ap.2.2| }
  let ns := agentStepH dist Agent.nurse na w.ni (rd.1, ap.2.1, rd.2)
  let ds := agentStepH dist Agent.doctor da w.di ns.1
  let rc := removeCompletedH ds.1.1 ds.1.2.1 ds.1.2.2
  { s := { rc.1 with current_time := rc.1.current_time + 1 },
    h := ds.1.2.1, m := rc.2, ni := ns.2, di := ds.2 }

/-- The fuelled while-loop of the heap-model simulation. -/
def simLoopH (dist : Room → Room → ℚ) (na da : List SimAction) (simulation_time : ℚ) :
    ℕ → SimLoopH → SimLoopH
  | 0, w => w
  | fuel + 1, w =>
    if w.s.current_time < simulation_time ∧ w.s.patientRefs ≠ [] then
      simLoopH dist na da simulation_time fuel (simBodyH dist na da w)
    else w

/-- simulate_action_sequence in the heap model: deep-clone the caller's
state into fresh heap cells, run the loop there, return the final state,
the final heap and the metrics. -/
def simulateH (dist : Room → Room → ℚ) (initial_state : HGameState) (h : Heap)
    (na da : List SimAction) (simulation_time : ℚ := 100) :
    HGameState × Heap × Metrics :=
  let cl := hclone initial_state h
  let fuel := (simulation_time - cl.1.current_time).ceil.toNat
  let w := simLoopH dist na da simulation_time fuel
    { s := cl.1, h := cl.2, m := {}, ni := 0, di := 0 }
  (w.s, w.h, w.m)

/-- Heap agreement below a watermark: every cell allocated before the
call still holds its old value. -/
def HeapPres (n0 : ℕ) (h0 h : Heap) : Prop :=
  ∀ i, i < n0 → h.getD i default = h0.getD i default

/-- All references of a state point into the freshly allocated block. -/
def RefsFresh (n0 : ℕ) (s : HGameState) : Prop :=
  ∀ r ∈ s.patientRefs, n0 ≤ r

theorem getD_set_ne (h : Heap) (r i : ℕ) (p : Patient) (hne : r ≠ i) :
    (h.set r p).getD i default = h.getD i default := by
  rw [List.getD_eq_getElem?_getD, List.getD_eq_getElem?_getD, List.getElem?_set_ne hne]

theorem hPenalize_pres (dt : ℚ) (n0 : ℕ) (h0 : Heap) :
    ∀ (rs : List ℕ) (h : Heap), (∀ r ∈ rs, n0 ≤ r) → HeapPres n0 h0 h →
      HeapPres n0 h0 (hPenalize dt rs h).1 := by
  intro rs
  induction rs with
  | nil => intro h _ hp; exact hp
  | cons r rest ih =>
    intro h hfresh hp
    refine ih _ (fun t ht => hfresh t (List.mem_cons_of_mem r ht)) ?_
    intro i hi
    rw [getD_set_ne]
    · exact hp i hi
    · have := hfresh r (List.mem_cons_self r rest)
      omega

theorem executeAgentActionH_pres (dist : Room → Room → ℚ) (n0 : ℕ) (h0 : Heap)
    (s : HGameState) (h : Heap) (agent : Agent) (action : SimAction) (m : Metrics)
    (hfresh : RefsFresh n0 s) (hp : HeapPres n0 h0 h) :
    HeapPres n0 h0 (executeAgentActionH dist s h agent action m).2.1 ∧
    RefsFresh n0 (executeAgentActionH dist s h agent action m).1 := by
  cases action with
  | WAIT =>
    constructor
    · intro i hi
      simp only [executeAgentActionH]
      split <;> exact hp i hi
    · intro r hr
      apply hfresh
      revert hr
      simp only [executeAgentActionH]
      split <;> exact fun hr => hr
  | TREAT_PATIENT k =>
    cases hget : s.patientRefs.get? (k - 1) with
    | none =>
      constructor
      · intro i hi
        simp only [executeAgentActionH, hget]
        exact hp i hi
      · intro r hr
        apply hfresh
        revert hr
        simp only [executeAgentActionH, hget]
        exact fun hr => hr
    | some r =>
      cases hnr : (h.getD r default).next_room with
      | none =>
        constructor
        · intro i hi
          simp only [executeAgentActionH, hget, hnr]
          exact hp i hi
        · intro t ht
          apply hfresh
          revert ht
          simp only [executeAgentActionH, hget, hnr]
          exact fun ht => ht
      | some room =>
        have hrmem : r ∈ s.patientRefs := List.get?_mem hget
        have hrn0 : n0 ≤ r := hfresh r hrmem
        constructor
        · intro i hi
          simp only [executeAgentActionH, hget, hnr]
          rw [getD_set_ne _ _ _ _ (by omega)]
          exact hp i hi
        · intro t ht
          apply hfresh
          revert ht
          simp only [executeAgentActionH, hget, hnr,
            apply_ite HGameState.patientRefs, ite_self]
          exact fun ht => ht

theorem agentStepH_pres (dist : Room → Room → ℚ) (n0 : ℕ) (h0 : Heap) (agent : Agent)
    (acts : List SimAction) (idx : ℕ) (shm : HGameState × Heap × Metrics)
    (hfresh : RefsFresh n0 shm.1) (hp : HeapPres n0 h0 shm.2.1) :
    HeapPres n0 h0 (agentStepH dist agent acts idx shm).1.2.1 ∧
    RefsFresh n0 (agentStepH dist agent acts idx shm).1.1 := by
  by_cases hb : (if agent = Agent.nurse then shm.1.nurse_busy_until
      else shm.1.doctor_busy_until) ≤ shm.1.current_time ∧ idx < acts.length
  · simp only [agentStepH, if_pos hb]
    exact ⟨(executeAgentActionH_pres dist n0 h0 _ _ _ _ _ hfresh hp).1,
      (executeAgentActionH_pres dist n0 h0 _ _ _ _ _ hfresh hp).2⟩
  · simp only [agentStepH, if_neg hb]
    exact ⟨hp, hfresh⟩

theorem removeDeadH_fresh (n0 : ℕ) (s : HGameState) (h : Heap) (m : Metrics)
    (hfresh : RefsFresh n0 s) : RefsFresh n0 (removeDeadH s h m).1 := by
  intro r hr
  exact hfresh r (List.mem_of_mem_filter hr)

theorem removeCompletedH_fresh (n0 : ℕ) (s : HGameState) (h : Heap) (m : Metrics)
    (hfresh : RefsFresh n0 s) : RefsFresh n0 (removeCompletedH s h m).1 := by
  intro r hr
  exact hfresh r (List.mem_of_mem_filter hr)

theorem simBodyH_pres (dist : Room → Room → ℚ) (na da : List SimAction) (n0 : ℕ)
    (h0 : Heap) (w : SimLoopH) (hfresh : RefsFresh n0 w.s) (hp : HeapPres n0 h0 w.h) :
    HeapPres n0 h0 (simBodyH dist na da w).h ∧ RefsFresh n0 (simBodyH dist na da w).s := by
  unfold simBodyH
  dsimp only
  set AP := applyWaitingPenaltiesH w.s w.h 1 with hAP
  set M1 : Metrics := { w.m with total_penalty := w.m.total_penalty + |AP.2.2| } with hM1
  set RD := removeDeadH AP.1 AP.2.1 M1 with hRD
  set NS := agentStepH dist Agent.nurse na w.ni (RD.1, AP.2.1, RD.2) with hNS
  set DS := agentStepH dist Agent.doctor da w.di NS.1 with hDS
  set RC := removeCompletedH DS.1.1 DS.1.2.1 DS.1.2.2 with hRC
  have hp1 : HeapPres n0 h0 AP.2.1 :=
    hPenalize_pres 1 n0 h0 w.s.patientRefs w.h hfresh hp
  have hf2 : RefsFresh n0 RD.1 := removeDeadH_fresh n0 AP.1 AP.2.1 M1 hfresh
  have hns := agentStepH_pres dist n0 h0 Agent.nurse na w.ni (RD.1, AP.2.1, RD.2) hf2 hp1
  have hds := agentStepH_pres dist n0 h0 Agent.doctor da w.di NS.1 hns.2 hns.1
  constructor
  · exact hds.1
  · intro r hr
    exact removeCompletedH_fresh n0 DS.1.1 DS.1.2.1 DS.1.2.2 hds.2 r hr

theorem simLoopH_pres (dist : Room → Room → ℚ) (na da : List SimAction) (T : ℚ)
    (n0 : ℕ) (h0 : Heap) (fuel : ℕ) (w : SimLoopH)
    (hfresh : RefsFresh n0 w.s) (hp : HeapPres n0 h0 w.h) :
    HeapPres n0 h0 (simLoopH dist na da T fuel w).h := by
  induction fuel generalizing w with
  | zero => exact hp
  | succ n ih =>
    unfold simLoopH
    split
    · exact ih _ (simBodyH_pres dist na da n0 h0 w hfresh hp).2
        (simBodyH_pres dist na da n0 h0 w hfresh hp).1
    · exact hp

theorem hclone_fresh (s : HGameState) (h : Heap) :
    RefsFresh h.length (hclone s h).1 := by
  intro r hr
  simp only [hclone] at hr
  exact (List.mem_range'_1.mp hr).1

theorem hclone_pres (s : HGameState) (h : Heap) :
    HeapPres h.length h (hclone s h).2 := by
  intro i hi
  simp only [hclone]
  rw [List.getD_eq_getElem?_getD, List.getD_eq_getElem?_getD, List.getElem?_append,
    if_pos hi]

/-- C7: simulate_action_sequence leaves every pre-existing patient cell —
in particular every patient of the caller's passed-in state — exactly as
it was: it mutates only the fresh cells its deep clone allocates (whose
initial contents are value-equal copies of the caller's patients), and
the caller's state record itself is never written. -/
theorem C7_simulator_frame (dist : Room → Room → ℚ) (s : HGameState) (h0 : Heap)
    (na da : List SimAction) (T : ℚ) :
    (∀ i, i < h0.length →
      (simulateH dist s h0 na da T).2.1.getD i default = h0.getD i default) ∧
    (∀ r ∈ s.patientRefs, r < h0.length →
      (simulateH dist s h0 na da T).2.1.getD r default = h0.getD r default) ∧
    (∀ j, j < s.patientRefs.length →
      (hclone s h0).2.getD (h0.length + j) default =
        h0.getD (s.patientRefs.getD j 0) default) := by
  have hmain : ∀ i, i < h0.length →
      (simulateH dist s h0 na da T).2.1.getD i default = h0.getD i default := by
    intro i hi
    exact simLoopH_pres dist na da T h0.length h0 _ _
      (hclone_fresh s h0) (hclone_pres s h0) i hi
  refine ⟨hmain, fun r _ hr => hmain r hr, ?_⟩
  intro j hj
  have hj1 : s.patientRefs[j]? = some s.patientRefs[j] := List.getElem?_eq_getElem hj
  have hj2 : s.patientRefs.getD j 0 = s.patientRefs[j] := by
    rw [List.getD_eq_getElem?_getD, hj1]
    rfl
  simp only [hclone]
  rw [List.getD_eq_getElem?_getD, List.getElem?_append_right (by omega),
    Nat.add_sub_cancel_left, List.getElem?_map, hj1, hj2]
  simp [Patient.clone_preserves]

/-- Caller-side heap and state used to instantiate the C7 theorem. -/
def hW : Heap := [pMinorW, pCritW]

def sW : HGameState := { patientRefs := [0, 1] }

/-- Witness for C7: after a full simulation run over the two-patient
heap, the caller's first patient cell is untouched. -/
theorem C7_witness :
    (0 : ℕ) < hW.length ∧
    (simulateH (fun _ _ => 0) sW hW [SimAction.TREAT_PATIENT 1] [] 100).2.1.getD 0 default
      = hW.getD 0 default := by
  have h0 : (0 : ℕ) < hW.length := by decide
  exact ⟨h0, (C7_simulator_frame (fun _ _ => 0) sW hW
    [SimAction.TREAT_PATIENT 1] [] 100).1 0 h0⟩

end OrientH
